import Mathlib

/-
Formal model of the SeeMe backend core: the request-admission gate
(ban lists and daily quota counters), the ElevenLabs credential pool
manager (health-aware rotation), and the streaming protocol normalizer
(SSE decode loops for the two upstream provider families), together
with theorems about ban enforcement, quota bypass, pool scanning,
tool-call reassembly, cancellation, timeout and malformed-frame
recovery.

External effects are modelled explicitly: the durable quota store is an
association list threaded through each operation (the store itself is
assumed not to fail; fire-and-forget telemetry writes are omitted),
wall-clock time is a natural number of milliseconds supplied by the
caller, and the external JSON parser is an oracle parameter
(`String → Option _`, `none` meaning JSON.parse threw).
-/

namespace SeeMe

/-- JavaScript string truthiness: `undefined` and the empty string are falsy. -/
def jsStrTruthy : Option String → Bool
  | none => false
  | some s => s != ""

/- Code-point-level models of the JavaScript string methods used by the
source (`startsWith`, `substring`, `trim`, `split`), defined over
character lists so that they evaluate on concrete inputs. -/

/-- JS `s.startsWith(pre)`. -/
def strStartsWith (s pre : String) : Bool :=
  s.toList.take pre.toList.length == pre.toList

/-- JS `s.substring(n)`. -/
def strDrop (s : String) (n : Nat) : String :=
  (s.toList.drop n).asString

/-- JS `s.trim()` (whitespace per `Char.isWhitespace`). -/
def strTrim (s : String) : String :=
  ((s.toList.dropWhile Char.isWhitespace).reverse.dropWhile
    Char.isWhitespace).reverse.asString

def splitNlAux : List Char → List Char → List String
  | acc, [] => [acc.reverse.asString]
  | acc, c :: cs =>
      if c = '\n' then acc.reverse.asString :: splitNlAux [] cs
      else splitNlAux (c :: acc) cs

/-- JS `s.split('\n')`: always nonempty, keeps empty segments. -/
def strSplitNl (s : String) : List String :=
  splitNlAux [] s.toList

/-- Lookup in a string-keyed association list (models a keyed table read). -/
def alistGet {β : Type} (m : List (String × β)) (k : String) : Option β :=
  match m with
  | [] => none
  | (k', v) :: rest => if k' = k then some v else alistGet rest k

/-- Insert-or-update in a string-keyed association list (models a keyed upsert). -/
def alistSet {β : Type} (m : List (String × β)) (k : String) (v : β) : List (String × β) :=
  match m with
  | [] => [(k, v)]
  | (k', v') :: rest => if k' = k then (k, v) :: rest else (k', v') :: alistSet rest k v

theorem alistGet_set_self {β : Type} (m : List (String × β)) (k : String) (v : β) :
    alistGet (alistSet m k v) k = some v := by
  induction m with
  | nil => simp [alistGet, alistSet]
  | cons h t ih =>
    obtain ⟨k', v'⟩ := h
    by_cases hk : k' = k
    · simp [alistGet, alistSet, hk]
    · simp [alistGet, alistSet, hk, ih]

theorem alistGet_set_ne {β : Type} (m : List (String × β)) (k k' : String) (v : β)
    (h : k' ≠ k) : alistGet (alistSet m k v) k' = alistGet m k' := by
  have h' : ¬k = k' := fun hh => h hh.symm
  induction m with
  | nil => simp [alistGet, alistSet, h']
  | cons hd t ih =>
    obtain ⟨k₀, v₀⟩ := hd
    by_cases hk : k₀ = k
    · subst hk
      simp [alistGet, alistSet, h']
    · simp only [alistSet, hk, if_false]
      by_cases hk' : k₀ = k'
      · simp [alistGet, hk']
      · simp [alistGet, hk', ih]

/- ===================================================================
   Admission gate of the streaming gateway (src/unnamed/part_001,
   second document: `checkAndIncrementRateLimit` and `handler`).
   =================================================================== -/

def VOICE_LIMIT : Nat := 3

def TEXT_LIMIT : Nat := 20

def BANNED_DEVICES : List String :=
  ["D0758F58-C953-40F7-9533-9DBBC4FB5FCB"]

def BANNED_USERS : List String :=
  ["3ab1a756-cb96-49b0-b585-0f10efe631c1",
   "4d6dc8e7-21b6-43dd-bd04-38a21124d8d2"]

def BANNED_IPS : List String := []

def exemptPromptTypes : List String := ["dailyMetrics", "dailyBoosts"]

def msPerDay : Nat := 86400000

/-- Next midnight UTC strictly after `now` (milliseconds since epoch);
models both `setUTCHours(24,0,0,0)` and
`setUTCDate(+1); setUTCHours(0,0,0,0)` on a fresh `Date`. -/
def nextMidnightUTC (now : Nat) : Nat := (now / msPerDay + 1) * msPerDay

/-- One row of the `usage_limits` table. -/
structure UsageRecord where
  voice_sessions_count : Nat
  text_sessions_count : Nat
  has_elevenlabs_key : Bool
  reset_at : Nat
deriving DecidableEq, Repr

/-- The `usage_limits` table keyed by `device_id`. -/
abbrev UsageStore := List (String × UsageRecord)

inductive LimitType
  | voice
  | text
deriving DecidableEq, Repr

/-- Result shape of `checkAndIncrementRateLimit`. -/
structure RateLimitResult where
  allowed : Bool
  limitType : Option LimitType := none
  used : Option Nat := none
  max : Option Nat := none
  banned : Bool := false
deriving DecidableEq, Repr

def bannedRL : RateLimitResult :=
  { allowed := false, limitType := some .text, used := some 0, max := some 0, banned := true }

def allowRL : RateLimitResult := { allowed := true }

/-- `checkAndIncrementRateLimit` from the streaming gateway
(src/unnamed/part_001 lines 576-727).  The Supabase reads/writes are
modelled as an always-successful in-memory store, so the fail-open /
fail-closed error branches are not reachable in the model. -/
def checkAndIncrementRateLimit (now : Nat) (store : UsageStore)
    (deviceId : String) (isVoiceMode hasElevenLabsKey : Bool)
    (promptType userId clientIP : Option String) :
    RateLimitResult × UsageStore :=
  if jsStrTruthy clientIP && BANNED_IPS.contains (clientIP.getD "") then
    (bannedRL, store)
  else if BANNED_DEVICES.contains deviceId then
    (bannedRL, store)
  else if jsStrTruthy userId && BANNED_USERS.contains (userId.getD "") then
    (bannedRL, store)
  else if jsStrTruthy promptType && exemptPromptTypes.contains (promptType.getD "") then
    (allowRL, store)
  else
    let fetched := alistGet store deviceId
    let created : UsageRecord × UsageStore :=
      match fetched with
      | some u => (u, store)
      | none =>
          let r : UsageRecord :=
            { voice_sessions_count := 0, text_sessions_count := 0,
              has_elevenlabs_key := hasElevenLabsKey, reset_at := nextMidnightUTC now }
          (r, alistSet store deviceId r)
    let cur := created.1
    let store1 := created.2
    let afterReset : UsageRecord × UsageStore :=
      if cur.reset_at ≤ now then
        let r := { cur with voice_sessions_count := 0, text_sessions_count := 0,
                            reset_at := nextMidnightUTC now }
        (r, alistSet store1 deviceId r)
      else (cur, store1)
    let cur2 := afterReset.1
    let store2 := afterReset.2
    if isVoiceMode then
      if hasElevenLabsKey then (allowRL, store2)
      else if VOICE_LIMIT ≤ cur2.voice_sessions_count then
        ({ allowed := false, limitType := some .voice,
           used := some cur2.voice_sessions_count, max := some VOICE_LIMIT }, store2)
      else
        (allowRL, alistSet store2 deviceId
          { cur2 with voice_sessions_count := cur2.voice_sessions_count + 1,
                      has_elevenlabs_key := hasElevenLabsKey })
    else
      if TEXT_LIMIT ≤ cur2.text_sessions_count then
        ({ allowed := false, limitType := some .text,
           used := some cur2.text_sessions_count, max := some TEXT_LIMIT }, store2)
      else
        (allowRL, alistSet store2 deviceId
          { cur2 with text_sessions_count := cur2.text_sessions_count + 1 })

/-- A JavaScript boolean-or-string flag as sent by the iOS client. -/
inductive JFlag
  | jb (b : Bool)
  | js (s : String)
  | jundef
deriving DecidableEq, Repr

/-- Parsing of a boolean flag in the handler:
`x === true || x === 'true'`. -/
def flagTrue : JFlag → Bool
  | .jb b => b
  | .js s => s == "true"
  | .jundef => false

structure GatewayContext where
  userId : Option String := none
  deviceId : Option String := none
  isVoiceMode : JFlag := .jundef
  hasTTS : JFlag := .jundef
  hasElevenLabsKey : JFlag := .jundef
deriving DecidableEq, Repr

/-- `body.userApiKey && body.userApiKey.trim().length > 0`. -/
def userKeyProvided : Option String → Bool
  | none => false
  | some k => (k != "") && (strTrim k != "")

inductive GatewayAdmission
  | badRequest (msg : String)
  | forbidden
  | tooManyRequests (limitType : Option LimitType) (used max : Option Nat)
  | proceed (store : UsageStore)
deriving DecidableEq, Repr

/-- Admission phase of the streaming gateway `handler`
(src/unnamed/part_001 lines 742-805): the method check is outside this
model; the outcome `proceed` means the handler goes on to set SSE
headers and stream.  Note the entire rate-limit (and therefore ban)
check sits inside `if (!userProvidedKey)`. -/
def gatewayAdmit (now : Nat) (store : UsageStore) (message : Option String)
    (userApiKey : Option String) (promptType : Option String)
    (ctx : GatewayContext) (clientIP : String) : GatewayAdmission :=
  match message with
  | none => .badRequest "Message is required"
  | some _ =>
    if userKeyProvided userApiKey then .proceed store
    else
      match ctx.deviceId with
      | none => .badRequest "Device ID is required for rate limiting"
      | some d =>
        if strTrim d = "" then .badRequest "Device ID is required for rate limiting"
        else
          let isVoiceMode := flagTrue ctx.isVoiceMode || flagTrue ctx.hasTTS
          let hasKey := flagTrue ctx.hasElevenLabsKey
          let r := checkAndIncrementRateLimit now store d isVoiceMode hasKey
                     promptType ctx.userId (some clientIP)
          if r.1.allowed then .proceed r.2
          else if r.1.banned then .forbidden
          else .tooManyRequests r.1.limitType r.1.used r.1.max

/- ===================================================================
   Voice-proxy admission gate (src/unnamed/part_000:
   `checkAndIncrementVoiceLimit`).
   =================================================================== -/

def DEFAULT_VOICE_LIMIT : Nat := 3

/-- `getGlobalVoiceLimit`: the `global_settings` row is a parameter;
absence (or a read error) falls back to the default. -/
def getGlobalVoiceLimit (globalSetting : Option Nat) : Nat :=
  globalSetting.getD DEFAULT_VOICE_LIMIT

structure VoiceLimitResult where
  allowed : Bool
  limit : Option Nat := none
  usage : Option Nat := none
  resetAt : Option Nat := none
deriving DecidableEq, Repr

/-- `checkAndIncrementVoiceLimit` from the voice-proxy endpoint
(src/unnamed/part_000 lines 30-138).  `customLimits` models the
`user_limits.custom_voice_limit` column; the JavaScript `|| null`
makes a stored 0 fall through to the global limit.  The source
computes the reset boundary with local-time `setHours`; the model
assumes a UTC server clock so it coincides with `nextMidnightUTC`.
The store is assumed not to fail (the catch-all fail-open branch is
unreachable in the model). -/
def checkAndIncrementVoiceLimit (now : Nat) (store : UsageStore)
    (globalSetting : Option Nat) (customLimits : String → Option Nat)
    (deviceId : String) (userId : Option String) :
    VoiceLimitResult × UsageStore :=
  let globalVoiceLimit := getGlobalVoiceLimit globalSetting
  let customVoiceLimit : Option Nat :=
    match userId with
    | some uid =>
        match customLimits uid with
        | some n => if n = 0 then none else some n
        | none => none
    | none => none
  let voiceLimit := customVoiceLimit.getD globalVoiceLimit
  match alistGet store deviceId with
  | none =>
      ({ allowed := true }, alistSet store deviceId
        { voice_sessions_count := 1, text_sessions_count := 0,
          has_elevenlabs_key := false, reset_at := nextMidnightUTC now })
  | some cur =>
      if cur.reset_at ≤ now then
        ({ allowed := true }, alistSet store deviceId
          { cur with voice_sessions_count := 1, text_sessions_count := 0,
                      reset_at := nextMidnightUTC now })
      else if cur.has_elevenlabs_key then
        ({ allowed := true }, alistSet store deviceId
          { cur with voice_sessions_count := cur.voice_sessions_count + 1 })
      else if voiceLimit ≤ cur.voice_sessions_count then
        ({ allowed := false, limit := some voiceLimit,
           usage := some cur.voice_sessions_count, resetAt := some cur.reset_at }, store)
      else
        ({ allowed := true }, alistSet store deviceId
          { cur with voice_sessions_count := cur.voice_sessions_count + 1 })

/- ===================================================================
   ElevenLabs credential pool manager
   (src/lib/elevenlabs-key-manager.ts).
   =================================================================== -/

inductive KStatus
  | active
  | exhausted
  | rate_limited
  | invalid
deriving DecidableEq, Repr

/-- Cached health record of one credential (`KeyStatus` in the source).
`usagePercentage` is a float in the source and is modelled only through
the exact rational comparison behind `isNearLimit`. -/
structure KeyStatus where
  key : String
  shortKey : String
  characterCount : Nat
  characterLimit : Nat
  remainingCharacters : Nat
  isOverLimit : Bool
  isNearLimit : Bool
  nextResetDate : Nat
  lastChecked : Nat
  status : KStatus
deriving DecidableEq, Repr

/-- `shortenKey`: keys longer than 20 characters are displayed as
first 12 + "..." + last 8. -/
def shortenKey (key : String) : String :=
  if key.length ≤ 20 then key
  else (key.toList.take 12).asString ++ "..." ++ (key.toList.drop (key.length - 8)).asString

/-- Response of the upstream subscription endpoint as seen by
`checkKeyStatus`. -/
inductive SubResp
  | s401
  | s429
  | httpErr (code : Nat)
  | ok (character_count character_limit next_reset_unix : Nat)
deriving DecidableEq, Repr

abbrev StatusMap := List (String × KeyStatus)

/-- `checkKeyStatus` (src/lib/elevenlabs-key-manager.ts lines 99-188).
Returns the computed status and the updated cache; a non-ok, non-401,
non-429 HTTP status throws (`Except.error`).  The asynchronous
`trackKeyUsage` persistence is fire-and-forget with swallowed failures
and is omitted from the model. -/
def checkKeyStatus (now : Nat) (resp : SubResp) (sts : StatusMap) (key : String) :
    Except Nat (KeyStatus × StatusMap) :=
  match resp with
  | .s401 =>
      let st : KeyStatus :=
        { key := key, shortKey := shortenKey key, characterCount := 0,
          characterLimit := 0, remainingCharacters := 0, isOverLimit := true,
          isNearLimit := false, nextResetDate := now, lastChecked := now,
          status := .invalid }
      .ok (st, alistSet sts key st)
  | .s429 =>
      let st : KeyStatus :=
        (alistGet sts key).getD
          { key := key, shortKey := shortenKey key, characterCount := 0,
            characterLimit := 0, remainingCharacters := 0, isOverLimit := true,
            isNearLimit := true, nextResetDate := now + 60000, lastChecked := now,
            status := .rate_limited }
      .ok (st, alistSet sts key st)
  | .httpErr code => .error code
  | .ok cc cl nr =>
      let isOverLimit := cl ≤ cc
      let isNearLimit := 0 < cl && 4 * cl ≤ 5 * cc
      let st : KeyStatus :=
        { key := key, shortKey := shortenKey key, characterCount := cc,
          characterLimit := cl, remainingCharacters := cl - cc,
          isOverLimit := isOverLimit, isNearLimit := isNearLimit,
          nextResetDate := nr * 1000, lastChecked := now,
          status := if isOverLimit then .exhausted else .active }
      .ok (st, alistSet sts key st)

/-- One candidate visit of the `getAvailableKey` while-loop body
(src/lib/elevenlabs-key-manager.ts lines 64-86): returns
(selected credential if any, updated cache, whether a status refresh
was performed).  A cached status that is not active-and-under-limit is
skipped on the cached value alone, with no refresh. -/
def visitKey (now : Nat) (resp : SubResp) (sts : StatusMap) (k : String) :
    Except Nat (Option String × StatusMap × Bool) :=
  match alistGet sts k with
  | none =>
      match checkKeyStatus now resp sts k with
      | .error c => .error c
      | .ok (_, sts') =>
          match alistGet sts' k with
          | some ns =>
              if ns.status = KStatus.active ∧ ns.isOverLimit = false then
                .ok (some k, sts', true)
              else .ok (none, sts', true)
          | none => .ok (none, sts', true)
  | some st =>
      if st.status = KStatus.active ∧ st.isOverLimit = false then
        let refreshed : Except Nat (StatusMap × Bool) :=
          if 60000 < now - st.lastChecked then
            match checkKeyStatus now resp sts k with
            | .error c => .error c
            | .ok (_, sts') => .ok (sts', true)
          else .ok (sts, false)
        match refreshed with
        | .error c => .error c
        | .ok (sts', r) =>
            match alistGet sts' k with
            | some u =>
                if u.isOverLimit = false then .ok (some k, sts', r)
                else .ok (none, sts', r)
            | none => .ok (none, sts', r)
      else .ok (none, sts, false)

inductive PoolErr
  | noKeys
  | allExhausted
  | checkFailed (code : Nat)
deriving DecidableEq, Repr

/-- Result of one `getAvailableKey` call, with the visit and refresh
traces used to state the scanning properties. -/
structure AcquireRes where
  result : Except PoolErr String
  finalIndex : Nat
  statuses : StatusMap
  visited : List Nat
  refreshed : List String

/-- The `while (attempts < this.keys.length)` scan.  `fuel` is
`keys.length - attempts`, so the recursion is structurally bounded the
same way the loop is; the redundant
`currentKeyIndex === startIndex && attempts >= keys.length` break of
the source coincides with fuel exhaustion. -/
def scanLoop (now : Nat) (resp : String → SubResp) (keys : List String) :
    Nat → Nat → StatusMap → List Nat → List String → AcquireRes
  | 0, idx, sts, visited, refreshed =>
      { result := .error .allExhausted, finalIndex := idx, statuses := sts,
        visited := visited.reverse, refreshed := refreshed.reverse }
  | fuel + 1, idx, sts, visited, refreshed =>
      let k := keys.getD idx ""
      match visitKey now (resp k) sts k with
      | .error c =>
          { result := .error (.checkFailed c), finalIndex := idx, statuses := sts,
            visited := (idx :: visited).reverse, refreshed := (k :: refreshed).reverse }
      | .ok (sel, sts', r) =>
          let refreshed' := if r then k :: refreshed else refreshed
          match sel with
          | some key =>
              { result := .ok key, finalIndex := idx, statuses := sts',
                visited := (idx :: visited).reverse, refreshed := refreshed'.reverse }
          | none =>
              scanLoop now resp keys fuel ((idx + 1) % keys.length) sts'
                (idx :: visited) refreshed'

/-- `getAvailableKey` (src/lib/elevenlabs-key-manager.ts lines 56-97).
The manager state is its credential list, cursor and health cache;
`resp` models the upstream subscription endpoint per key. -/
def getAvailableKey (now : Nat) (resp : String → SubResp)
    (keys : List String) (currentKeyIndex : Nat) (sts : StatusMap) : AcquireRes :=
  if keys.length = 0 then
    { result := .error .noKeys, finalIndex := currentKeyIndex, statuses := sts,
      visited := [], refreshed := [] }
  else
    scanLoop now resp keys keys.length currentKeyIndex sts [] []

/- ===================================================================
   Pooled TTS endpoint (src/pages/api/elevenlabs-tts.ts).
   =================================================================== -/

/-- The methods actually defined on the `ElevenLabsKeyManager` class
(src/lib/elevenlabs-key-manager.ts); `getActiveKey` and `trackUsage`
are not among them. -/
def elevenLabsKeyManagerMethods : List String :=
  ["getCurrentKey", "getAvailableKey", "checkKeyStatus", "handleAPIError",
   "rotateKey", "getAllKeyStatuses", "getKeyStatusSummary", "shortenKey",
   "trackKeyUsage", "hashKey"]

inductive TtsResult
  | methodNotAllowed
  | badRequest
  | unavailable
  | audio (tracked : Nat)
  | serverError
deriving DecidableEq, Repr

/-- Observable outcome of one TTS request: the response plus how many
times the credential pool was consulted and how many synthesis
requests were sent upstream. -/
structure TtsTrace where
  result : TtsResult
  poolAcquires : Nat
  upstreamCalls : Nat
deriving DecidableEq, Repr

/-- The pooled TTS handler (src/pages/api/elevenlabs-tts.ts).
The handler invokes `elevenLabsKeyManager.getActiveKey()` and later
`elevenLabsKeyManager.trackUsage(...)`; neither name is a method of
`ElevenLabsKeyManager`, so at run time the property access yields
`undefined` and calling it raises a TypeError, which the surrounding
try/catch maps to a 500 response.  `pool` and `upstreamOk` model the
credential pool and the upstream service for the intended path. -/
def elevenlabsTtsHandler (isPost : Bool) (voiceId text : Option String)
    (pool : Option String) (upstreamOk : Bool) : TtsTrace :=
  if isPost = false then
    { result := .methodNotAllowed, poolAcquires := 0, upstreamCalls := 0 }
  else if !jsStrTruthy voiceId || !jsStrTruthy text then
    { result := .badRequest, poolAcquires := 0, upstreamCalls := 0 }
  else if elevenLabsKeyManagerMethods.contains "getActiveKey" = false then
    { result := .serverError, poolAcquires := 0, upstreamCalls := 0 }
  else
    match pool with
    | none => { result := .unavailable, poolAcquires := 1, upstreamCalls := 0 }
    | some _ =>
        if upstreamOk = false then
          { result := .serverError, poolAcquires := 1, upstreamCalls := 1 }
        else if elevenLabsKeyManagerMethods.contains "trackUsage" = false then
          { result := .serverError, poolAcquires := 1, upstreamCalls := 1 }
        else
          { result := .audio ((text.getD "").length), poolAcquires := 1,
            upstreamCalls := 1 }

/- ===================================================================
   Streaming protocol normalizer.

   `streamOpenAI` / `streamAnthropic` in
   src/pages/api/ai-gateway-streaming.ts (with 280 s timeout and a
   cancellation-aware `onChunk` callback) and their counterparts in
   src/pages/api/ai-gateway.ts (no timeout, void callback).

   The external JSON parser is an oracle parameter: `pf` parses one
   `data:` payload into a frame (`none` = JSON.parse or the subsequent
   field access threw, so the line is logged and skipped), and `jp`
   parses an accumulated tool-argument string into an abstract JSON
   value of type `α` (`none` = JSON.parse threw).  Callback return
   values are modelled by `accept i`, the value the `onChunk` callback
   returns at its i-th invocation; the generated correlation id and
   timestamp of a tool invocation are nondeterministic environment
   values and are not part of the event.
   =================================================================== -/

inductive StreamEvent (α : Type)
  | chunk (s : String)
  | tool (name : String) (args : α)
deriving DecidableEq, Repr

structure OAFunc where
  name : Option String := none
  arguments : Option String := none
deriving DecidableEq, Repr

structure OAToolCallFrag where
  index : Option Nat := none
  function : Option OAFunc := none
deriving DecidableEq, Repr

structure OADelta where
  content : Option String := none
  tool_calls : Option (List OAToolCallFrag) := none
deriving DecidableEq, Repr

structure OAChoice where
  delta : Option OADelta := none
  finish_reason : Option String := none
deriving DecidableEq, Repr

structure OAFrame where
  choices : List OAChoice
deriving DecidableEq, Repr

/-- `accumulatedToolCall`: a plain JS object, fields absent until set. -/
structure OAAccum where
  name : Option String := none
  arguments : Option String := none
deriving DecidableEq, Repr

/-- Decode-loop state of one family-A streaming session. -/
structure OAMach (α : Type) where
  buffer : String := ""
  acc : OAAccum := {}
  toolCallIndex : Option Nat := none
  trace : List (StreamEvent α) := []
  nChunks : Nat := 0
deriving DecidableEq, Repr

def oaInit {α : Type} : OAMach α := {}

inductive Ctl
  | go
  | abort
deriving DecidableEq, Repr

/-- `accumulatedToolCall.arguments || '\x7b\x7d'`: undefined or empty
falls back to the two-character empty-object literal. -/
def argStrOf : Option String → String
  | none => "\x7b\x7d"
  | some s => if s = "" then "\x7b\x7d" else s

/-- Body of `for (const toolCall of delta.tool_calls)`: fragments with
a defined `index` update the accumulator; a truthy `function.name`
restarts it, truthy `function.arguments` appends. -/
def oaApplyFrag (st : OAAccum × Option Nat) (tc : OAToolCallFrag) :
    OAAccum × Option Nat :=
  match tc.index with
  | none => st
  | some i =>
      let acc := st.1
      let acc :=
        if jsStrTruthy (tc.function.bind OAFunc.name) then
          { name := tc.function.bind OAFunc.name, arguments := some "" }
        else acc
      let acc :=
        if jsStrTruthy (tc.function.bind OAFunc.arguments) then
          let appended := (acc.arguments.getD "") ++ ((tc.function.bind OAFunc.arguments).getD "")
          { acc with arguments := some appended }
        else acc
      (acc, some i)

/-- The tool-call half of one family-A frame: fragment accumulation
followed by the finish-reason finalization (whose accumulator clear
sits inside the `try` after `JSON.parse`). -/
def oaToolPart {α : Type} (jp : String → Option α)
    (st1 : OAMach α) (choice : OAChoice) (delta : OADelta) : OAMach α :=
  let folded :=
    match delta.tool_calls with
    | none => (st1.acc, st1.toolCallIndex)
    | some tcs => tcs.foldl oaApplyFrag (st1.acc, st1.toolCallIndex)
  let st2 := { st1 with acc := folded.1, toolCallIndex := folded.2 }
  if choice.finish_reason == some "tool_calls" && jsStrTruthy st2.acc.name then
    match jp (argStrOf st2.acc.arguments) with
    | some v =>
        { st2 with
            trace := st2.trace ++ [StreamEvent.tool (st2.acc.name.getD "") v],
            acc := {}, toolCallIndex := none }
    | none => st2
  else st2

/-- Processing of one parsed family-A frame in
src/pages/api/ai-gateway-streaming.ts (lines 394-443): text delta with
cancellation check, then the tool-call half. -/
def oaFrameStep {α : Type} (jp : String → Option α) (accept : Nat → Bool)
    (st : OAMach α) (fr : OAFrame) : OAMach α × Ctl :=
  match fr.choices.head? with
  | none => (st, .go)
  | some choice =>
    match choice.delta with
    | none => (st, .go)
    | some delta =>
      if jsStrTruthy delta.content then
        let c := delta.content.getD ""
        let i := st.nChunks
        let st' := { st with trace := st.trace ++ [StreamEvent.chunk c],
                             nChunks := i + 1 }
        if accept i then (oaToolPart jp st' choice delta, Ctl.go)
        else (st', Ctl.abort)
      else (oaToolPart jp st choice delta, Ctl.go)

/-- Processing of one line of the family-A SSE stream: non-`data:`
lines are ignored, the `[DONE]` sentinel is skipped, and a payload the
frame parser rejects is logged and skipped. -/
def oaLineStep {α : Type} (pf : String → Option OAFrame) (jp : String → Option α)
    (accept : Nat → Bool) (st : OAMach α) (line : String) : OAMach α × Ctl :=
  if strStartsWith line "data: " then
    let data := strTrim (strDrop line 6)
    if data == "[DONE]" then (st, Ctl.go)
    else
      match pf data with
      | none => (st, Ctl.go)
      | some fr => oaFrameStep jp accept st fr
  else (st, Ctl.go)

/-- `for (const line of lines)` with the early return on abort. -/
def oaLinesStep {α : Type} (pf : String → Option OAFrame) (jp : String → Option α)
    (accept : Nat → Bool) : OAMach α → List String → OAMach α × Ctl
  | st, [] => (st, Ctl.go)
  | st, l :: ls =>
      match oaLineStep pf jp accept st l with
      | (st', Ctl.go) => oaLinesStep pf jp accept st' ls
      | (st', Ctl.abort) => (st', Ctl.abort)

/-- Sequential frame processing with abort propagation; this is the
loop restricted to already-parsed frames, used to state frame-level
properties. -/
def oaFrames {α : Type} (jp : String → Option α) (accept : Nat → Bool) :
    OAMach α → List OAFrame → OAMach α × Ctl
  | st, [] => (st, Ctl.go)
  | st, fr :: frs =>
      match oaFrameStep jp accept st fr with
      | (st', Ctl.go) => oaFrames jp accept st' frs
      | (st', Ctl.abort) => (st', Ctl.abort)

/-- `buffer.split('\n')` followed by `buffer = lines.pop() || ''`. -/
def splitBuffered (s : String) : List String × String :=
  let parts := strSplitNl s
  (parts.dropLast, (parts.getLast?).getD "")

inductive StreamOutcome
  | completed
  | aborted
  | timedOut
deriving DecidableEq, Repr

/-- Result of one decode-loop run: final machine state, how the loop
ended, whether `reader.cancel()` was called, and the clock values of
the iterations whose body ran (used to state the timeout bound). -/
structure OARunResult (α : Type) where
  st : OAMach α
  outcome : StreamOutcome
  cancelled : Bool
  processedNows : List Nat
deriving DecidableEq, Repr

/-- One `reader.read()` observation: the clock value at the top of the
iteration and the decoded chunk (`none` = done). -/
structure OAStep where
  now : Nat
  read : Option String
deriving DecidableEq, Repr

def streamTimeout : Nat := 280000

/-- The `while (true)` decode loop of `streamOpenAI` in
src/pages/api/ai-gateway-streaming.ts (lines 374-449): top-of-loop
timeout check (cancel + throw), read, buffered line split, per-line
processing with the cancellation early-return.  An exhausted step list
ends the stream like `done`. -/
def oaRun {α : Type} (pf : String → Option OAFrame) (jp : String → Option α)
    (accept : Nat → Bool) (startTime : Nat) :
    OAMach α → List OAStep → OARunResult α
  | st, [] => { st := st, outcome := .completed, cancelled := false, processedNows := [] }
  | st, step :: rest =>
      if streamTimeout < step.now - startTime then
        { st := st, outcome := .timedOut, cancelled := true, processedNows := [] }
      else
        match step.read with
        | none =>
            { st := st, outcome := .completed, cancelled := false,
              processedNows := [step.now] }
        | some chunk =>
            let parts := splitBuffered (st.buffer ++ chunk)
            let st1 := { st with buffer := parts.2 }
            match oaLinesStep pf jp accept st1 parts.1 with
            | (st2, Ctl.go) =>
                let r := oaRun pf jp accept startTime st2 rest
                { r with processedNows := step.now :: r.processedNows }
            | (st2, Ctl.abort) =>
                { st := st2, outcome := .aborted, cancelled := true,
                  processedNows := [step.now] }

/- Family B (Anthropic) -/

structure AnthDelta where
  text : Option String := none
  type : Option String := none
  pjson : Option String := none
deriving DecidableEq, Repr

structure AnthContentBlock where
  type : Option String := none
  name : Option String := none
  id : Option String := none
deriving DecidableEq, Repr

/-- A family-B event: `pjson` is the `partial_json` field of the
source. -/
structure AnthFrame where
  type : Option String := none
  delta : Option AnthDelta := none
  content_block : Option AnthContentBlock := none
deriving DecidableEq, Repr

structure AnthAccum where
  name : Option String := none
  id : Option String := none
  input : Option String := none
deriving DecidableEq, Repr

structure AnthMach (α : Type) where
  buffer : String := ""
  acc : AnthAccum := {}
  trace : List (StreamEvent α) := []
  nChunks : Nat := 0
deriving DecidableEq, Repr

def anthInit {α : Type} : AnthMach α := {}

/-- JavaScript string coercion used by `accumulatedToolUse.input += x`
when a field is `undefined`. -/
def jsToStr : Option String → String
  | none => "undefined"
  | some s => s

/-- The tool-use half of one family-B frame: `content_block_start`,
`input_json_delta` accumulation, and the `content_block_stop`
finalization (whose accumulator clear sits inside the `try` after
`JSON.parse`). -/
def anthToolPart {α : Type} (jp : String → Option α)
    (st1 : AnthMach α) (fr : AnthFrame) : AnthMach α :=
  let st2 :=
    if fr.type == some "content_block_start" &&
       ((fr.content_block.bind AnthContentBlock.type) == some "tool_use") then
      { st1 with acc :=
          { name := fr.content_block.bind AnthContentBlock.name,
            id := fr.content_block.bind AnthContentBlock.id,
            input := some "" } }
    else st1
  let st3 :=
    if fr.type == some "content_block_delta" &&
       ((fr.delta.bind AnthDelta.type) == some "input_json_delta") then
      { st2 with acc := { st2.acc with
          input := some (jsToStr st2.acc.input ++
                         jsToStr (fr.delta.bind AnthDelta.pjson)) } }
    else st2
  if fr.type == some "content_block_stop" && jsStrTruthy st3.acc.name then
    match jp (argStrOf st3.acc.input) with
    | some v =>
        { st3 with
            trace := st3.trace ++ [StreamEvent.tool (st3.acc.name.getD "") v],
            acc := {} }
    | none => st3
  else st3

/-- Processing of one parsed family-B frame in
src/pages/api/ai-gateway-streaming.ts (lines 549-588): text delta with
cancellation check, then the tool-use half. -/
def anthFrameStep {α : Type} (jp : String → Option α) (accept : Nat → Bool)
    (st : AnthMach α) (fr : AnthFrame) : AnthMach α × Ctl :=
  if fr.type == some "content_block_delta" &&
     jsStrTruthy (fr.delta.bind AnthDelta.text) then
    let c := (fr.delta.bind AnthDelta.text).getD ""
    let i := st.nChunks
    let st' := { st with trace := st.trace ++ [StreamEvent.chunk c],
                         nChunks := i + 1 }
    if accept i then (anthToolPart jp st' fr, Ctl.go)
    else (st', Ctl.abort)
  else (anthToolPart jp st fr, Ctl.go)

/-- One line of the family-B stream: no `[DONE]` sentinel check; any
payload the parser rejects is logged and skipped. -/
def anthLineStep {α : Type} (pf : String → Option AnthFrame) (jp : String → Option α)
    (accept : Nat → Bool) (st : AnthMach α) (line : String) : AnthMach α × Ctl :=
  if strStartsWith line "data: " then
    match pf (strTrim (strDrop line 6)) with
    | none => (st, Ctl.go)
    | some fr => anthFrameStep jp accept st fr
  else (st, Ctl.go)

def anthLinesStep {α : Type} (pf : String → Option AnthFrame) (jp : String → Option α)
    (accept : Nat → Bool) : AnthMach α → List String → AnthMach α × Ctl
  | st, [] => (st, Ctl.go)
  | st, l :: ls =>
      match anthLineStep pf jp accept st l with
      | (st', Ctl.go) => anthLinesStep pf jp accept st' ls
      | (st', Ctl.abort) => (st', Ctl.abort)

structure AnthRunResult (α : Type) where
  st : AnthMach α
  outcome : StreamOutcome
  cancelled : Bool
  processedNows : List Nat
deriving DecidableEq, Repr

/-- The `while (true)` decode loop of `streamAnthropic` in
src/pages/api/ai-gateway-streaming.ts (lines 529-594). -/
def anthRun {α : Type} (pf : String → Option AnthFrame) (jp : String → Option α)
    (accept : Nat → Bool) (startTime : Nat) :
    AnthMach α → List OAStep → AnthRunResult α
  | st, [] => { st := st, outcome := .completed, cancelled := false, processedNows := [] }
  | st, step :: rest =>
      if streamTimeout < step.now - startTime then
        { st := st, outcome := .timedOut, cancelled := true, processedNows := [] }
      else
        match step.read with
        | none =>
            { st := st, outcome := .completed, cancelled := false,
              processedNows := [step.now] }
        | some chunk =>
            let parts := splitBuffered (st.buffer ++ chunk)
            let st1 := { st with buffer := parts.2 }
            match anthLinesStep pf jp accept st1 parts.1 with
            | (st2, Ctl.go) =>
                let r := anthRun pf jp accept startTime st2 rest
                { r with processedNows := step.now :: r.processedNows }
            | (st2, Ctl.abort) =>
                { st := st2, outcome := .aborted, cancelled := true,
                  processedNows := [step.now] }

/- Decode loop of src/pages/api/ai-gateway.ts `streamOpenAI`
(lines 368-431): same frame handling, but the `onChunk` result is
ignored (void callback, no cancellation) and there is no timeout
check. -/

/-- Family-A frame processing in src/pages/api/ai-gateway.ts: identical
to `oaFrameStep` except that the text-delta callback result is
discarded. -/
def gwOaFrameStep {α : Type} (jp : String → Option α)
    (st : OAMach α) (fr : OAFrame) : OAMach α :=
  match fr.choices.head? with
  | none => st
  | some choice =>
    match choice.delta with
    | none => st
    | some delta =>
      let st1 :=
        if jsStrTruthy delta.content then
          { st with trace := st.trace ++ [StreamEvent.chunk (delta.content.getD "")],
                    nChunks := st.nChunks + 1 }
        else st
      oaToolPart jp st1 choice delta

def gwOaLineStep {α : Type} (pf : String → Option OAFrame) (jp : String → Option α)
    (st : OAMach α) (line : String) : OAMach α :=
  if strStartsWith line "data: " then
    let data := strTrim (strDrop line 6)
    if data == "[DONE]" then st
    else
      match pf data with
      | none => st
      | some fr => gwOaFrameStep jp st fr
  else st

def gwOaLinesStep {α : Type} (pf : String → Option OAFrame) (jp : String → Option α) :
    OAMach α → List String → OAMach α
  | st, [] => st
  | st, l :: ls => gwOaLinesStep pf jp (gwOaLineStep pf jp st l) ls

/-- Sequential frame processing for the ai-gateway.ts loop. -/
def gwOaFrames {α : Type} (jp : String → Option α) :
    OAMach α → List OAFrame → OAMach α
  | st, [] => st
  | st, fr :: frs => gwOaFrames jp (gwOaFrameStep jp st fr) frs

/-- The `while (true)` decode loop of `streamOpenAI` in
src/pages/api/ai-gateway.ts: no timeout check, no cancellation; it
runs until the reader reports done. -/
def gwOaRun {α : Type} (pf : String → Option OAFrame) (jp : String → Option α) :
    OAMach α → List OAStep → OARunResult α
  | st, [] => { st := st, outcome := .completed, cancelled := false, processedNows := [] }
  | st, step :: rest =>
      match step.read with
      | none =>
          { st := st, outcome := .completed, cancelled := false,
            processedNows := [step.now] }
      | some chunk =>
          let parts := splitBuffered (st.buffer ++ chunk)
          let st1 := { st with buffer := parts.2 }
          let st2 := gwOaLinesStep pf jp st1 parts.1
          let r := gwOaRun pf jp st2 rest
          { r with processedNows := step.now :: r.processedNows }

/- ===================================================================
   Theorems.
   =================================================================== -/

def bannedDeviceId : String := "D0758F58-C953-40F7-9533-9DBBC4FB5FCB"

def c1ctx : GatewayContext := { deviceId := some bannedDeviceId }

/-- C1 counterexample: a request from a banned device that supplies the
caller's own upstream API credential is not denied — the handler skips
`checkAndIncrementRateLimit` (bans included) whenever
`userApiKey` is provided, so admission proceeds with the store
untouched, contradicting the claim that the ban check is not skipped
by the own-credential bypass. -/
theorem c1_counterexample :
    gatewayAdmit 0 [] (some "hi") (some "sk-user-key") none c1ctx "203.0.113.5"
      = GatewayAdmission.proceed [] := by
  rfl

/-- C1 (amended): when the request does not supply the caller's own
upstream API credential (and carries a nonempty device id), a caller
matching any ban dimension is denied with the banned outcome before
any quota logic runs (the store is untouched), the dimensions being
tested in the order address, device, user with the first match
winning; when the caller supplies their own upstream credential the
gate — ban checks included — is skipped entirely and admission
proceeds. -/
theorem c1_amended :
    (∀ (now : Nat) (store : UsageStore) (m : String) (k pt : Option String)
        (ctx : GatewayContext) (ip d : String),
      userKeyProvided k = false →
      ctx.deviceId = some d → strTrim d ≠ "" →
      ((BANNED_IPS.contains ip = true ∧ ip ≠ "") ∨
        BANNED_DEVICES.contains d = true ∨
        (jsStrTruthy ctx.userId = true ∧
          BANNED_USERS.contains (ctx.userId.getD "") = true)) →
      gatewayAdmit now store (some m) k pt ctx ip = GatewayAdmission.forbidden ∧
      checkAndIncrementRateLimit now store d
          (flagTrue ctx.isVoiceMode || flagTrue ctx.hasTTS)
          (flagTrue ctx.hasElevenLabsKey) pt ctx.userId (some ip)
        = (bannedRL, store)) ∧
    (∀ (now : Nat) (store : UsageStore) (m : String) (k pt : Option String)
        (ctx : GatewayContext) (ip : String),
      userKeyProvided k = true →
      gatewayAdmit now store (some m) k pt ctx ip = GatewayAdmission.proceed store) := by
  constructor
  · intro now store m k pt ctx ip d hk hdev htrim hban
    have hc1 : (jsStrTruthy (some ip) && BANNED_IPS.contains ((some ip).getD "")) = false := by
      simp [BANNED_IPS]
    have hrl : checkAndIncrementRateLimit now store d
        (flagTrue ctx.isVoiceMode || flagTrue ctx.hasTTS)
        (flagTrue ctx.hasElevenLabsKey) pt ctx.userId (some ip)
        = (bannedRL, store) := by
      unfold checkAndIncrementRateLimit
      rw [hc1]
      simp only [Bool.false_eq_true, if_false]
      rcases hban with ⟨hmem, _⟩ | hdevban | ⟨hu1, hu2⟩
      · rw [show BANNED_IPS.contains ip = false from by simp [BANNED_IPS]] at hmem
        exact absurd hmem (by simp)
      · rw [hdevban]
        simp
      · cases hdb : BANNED_DEVICES.contains d with
        | true => simp
        | false =>
            simp only [Bool.false_eq_true, if_false]
            rw [hu1, hu2]
            simp
    refine ⟨?_, hrl⟩
    simp [gatewayAdmit, hk, hdev, htrim, hrl, bannedRL]
  · intro now store m k pt ctx ip hk
    simp [gatewayAdmit, hk]

/-- C1 witness: the amended theorem applied to a concrete banned-device
request without an own credential. -/
theorem c1_amended_witness :
    gatewayAdmit 5 [] (some "x") none none c1ctx "198.51.100.7"
      = GatewayAdmission.forbidden ∧
    checkAndIncrementRateLimit 5 [] bannedDeviceId false false none none
        (some "198.51.100.7") = (bannedRL, []) := by
  have h := c1_amended.1 5 [] "x" none none c1ctx "198.51.100.7" bannedDeviceId
    rfl rfl (by decide) (Or.inr (Or.inl (by decide)))
  exact h

/-- C2: evaluating the pooled TTS handler at a well-formed request
(POST with a voiceId and text) yields a 500 server error without ever
consulting the credential pool or the upstream service, for every pool
state — because `getActiveKey` is not a method of
`ElevenLabsKeyManager`, so the call raises a TypeError caught by the
handler's catch-all. -/
theorem c2_tts_handler_always_500 :
    ∀ (pool : Option String) (upstreamOk : Bool),
      elevenlabsTtsHandler true (some "v1") (some "hello") pool upstreamOk
        = { result := TtsResult.serverError, poolAcquires := 0, upstreamCalls := 0 } := by
  intro pool upstreamOk
  rfl

/-- C2 witness: the evaluation theorem applied at a concrete pool
state. -/
theorem c2_tts_handler_always_500_witness :
    elevenlabsTtsHandler true (some "v1") (some "hello") (some "sk-pool") true
      = { result := TtsResult.serverError, poolAcquires := 0, upstreamCalls := 0 } :=
  c2_tts_handler_always_500 (some "sk-pool") true

def c6store : UsageStore :=
  [("dev-1", { voice_sessions_count := 5, text_sessions_count := 0,
               has_elevenlabs_key := true, reset_at := 86400000 })]

/-- C6 counterexample: in the streaming gateway, a voice request whose
record is flagged as owning the pooled credential (and whose request
flag is set) is allowed, but the store is returned unchanged — the
voice counter is not incremented, contradicting the claim that usage
is still tracked under the bypass. -/
theorem c6_counterexample :
    checkAndIncrementRateLimit 0 c6store "dev-1" true true none none
        (some "198.51.100.9") = (allowRL, c6store) := by
  rfl

/-- C6 (amended): the two voice-bypass variants differ.  In the
voice-proxy gate (`checkAndIncrementVoiceLimit`), a record flagged as
owning the pooled credential is allowed regardless of the voice
counter's value and the counter is still incremented by one.  In the
streaming gateway (`checkAndIncrementRateLimit`), the bypass is keyed
on the request's `hasElevenLabsKey` flag, returns Allow regardless of
the counter, and does not increment the counter. -/
theorem c6_amended :
    (∀ (now : Nat) (store : UsageStore) (gs : Option Nat)
        (cl : String → Option Nat) (d : String) (uid : Option String)
        (cur : UsageRecord),
      alistGet store d = some cur → now < cur.reset_at →
      cur.has_elevenlabs_key = true →
      checkAndIncrementVoiceLimit now store gs cl d uid =
        ({ allowed := true }, alistSet store d
          { cur with voice_sessions_count := cur.voice_sessions_count + 1 })) ∧
    (∀ (now : Nat) (store : UsageStore) (d : String) (pt uid ip : Option String)
        (cur : UsageRecord),
      BANNED_DEVICES.contains d = false →
      (jsStrTruthy uid && BANNED_USERS.contains (uid.getD "")) = false →
      (jsStrTruthy ip && BANNED_IPS.contains (ip.getD "")) = false →
      (jsStrTruthy pt && exemptPromptTypes.contains (pt.getD "")) = false →
      alistGet store d = some cur → now < cur.reset_at →
      checkAndIncrementRateLimit now store d true true pt uid ip = (allowRL, store)) := by
  constructor
  · intro now store gs cl d uid cur hget hreset hflag
    unfold checkAndIncrementVoiceLimit
    rw [hget]
    simp [Nat.not_le.mpr hreset, hflag]
  · intro now store d pt uid ip cur hdev huser hip hexempt hget hreset
    unfold checkAndIncrementRateLimit
    rw [hip, hdev, huser, hexempt]
    simp only [Bool.false_eq_true, if_false]
    rw [hget]
    simp [Nat.not_le.mpr hreset]

/-- C6 witness: both amended clauses applied at concrete stores. -/
theorem c6_amended_witness :
    checkAndIncrementVoiceLimit 0 c6store none (fun _ => none) "dev-1" none =
      ({ allowed := true }, [("dev-1",
        { voice_sessions_count := 6, text_sessions_count := 0,
          has_elevenlabs_key := true, reset_at := 86400000 })]) ∧
    checkAndIncrementRateLimit 0 c6store "dev-1" true true none none
        (some "198.51.100.9") = (allowRL, c6store) := by
  constructor
  · have h := c6_amended.1 0 c6store none (fun _ => none) "dev-1" none
      { voice_sessions_count := 5, text_sessions_count := 0,
        has_elevenlabs_key := true, reset_at := 86400000 } rfl (by decide) rfl
    exact h
  · exact c6_amended.2 0 c6store "dev-1" none none (some "198.51.100.9")
      { voice_sessions_count := 5, text_sessions_count := 0,
        has_elevenlabs_key := true, reset_at := 86400000 }
      (by decide) rfl (by decide) rfl rfl (by decide)

/- Scenario builders and helper lemmas for the family-A tool-call
frames. -/

/-- Concatenation of argument fragments in arrival order. -/
def concatStrs : List String → String
  | [] => ""
  | s :: rest => s ++ concatStrs rest

/-- A delta frame carrying one tool-call fragment at index 0. -/
def mkOAToolFrame (name : Option String) (args : String) : OAFrame :=
  let fn : OAFunc := { name := name, arguments := some args }
  let frag : OAToolCallFrag := { index := some 0, function := some fn }
  let delta : OADelta := { tool_calls := some [frag] }
  { choices := [{ delta := some delta }] }

/-- A frame whose only payload is `finish_reason: "tool_calls"`. -/
def mkOAFinishFrame : OAFrame :=
  { choices := [{ delta := some {}, finish_reason := some "tool_calls" }] }

/-- A bare family-B `content_block_stop` frame. -/
def mkAnthStopFrame : AnthFrame := { type := some "content_block_stop" }

theorem jsStrTruthy_none : jsStrTruthy none = false := rfl

theorem oaFrameStep_nameFrame {α : Type} (jp : String → Option α) (accept : Nat → Bool)
    (st : OAMach α) (n a : String) (hn : n ≠ "") :
    oaFrameStep jp accept st (mkOAToolFrame (some n) a)
      = ({ st with
            acc := { name := some n, arguments := some a },
            toolCallIndex := some 0 }, Ctl.go) := by
  by_cases ha : a = ""
  · subst ha
    simp [oaFrameStep, oaToolPart, mkOAToolFrame, oaApplyFrag, jsStrTruthy, hn]
  · simp [oaFrameStep, oaToolPart, mkOAToolFrame, oaApplyFrag, jsStrTruthy, hn, ha,
      String.empty_append]

theorem oaFrameStep_argFrame {α : Type} (jp : String → Option α) (accept : Nat → Bool)
    (st : OAMach α) (n s a : String)
    (hacc : st.acc = { name := some n, arguments := some s }) :
    oaFrameStep jp accept st (mkOAToolFrame none a)
      = ({ st with
            acc := { name := some n, arguments := some (s ++ a) },
            toolCallIndex := some 0 }, Ctl.go) := by
  by_cases ha : a = ""
  · subst ha
    simp [oaFrameStep, oaToolPart, mkOAToolFrame, oaApplyFrag, jsStrTruthy, hacc,
      String.append_empty]
  · simp [oaFrameStep, oaToolPart, mkOAToolFrame, oaApplyFrag, jsStrTruthy, hacc, ha]

theorem oaFrameStep_finish_emit {α : Type} (jp : String → Option α) (accept : Nat → Bool)
    (st : OAMach α) (v : α) (hn : jsStrTruthy st.acc.name = true)
    (hjp : jp (argStrOf st.acc.arguments) = some v) :
    oaFrameStep jp accept st mkOAFinishFrame
      = ({ st with
            trace := st.trace ++ [StreamEvent.tool (st.acc.name.getD "") v],
            acc := {}, toolCallIndex := none }, Ctl.go) := by
  simp [oaFrameStep, oaToolPart, mkOAFinishFrame, jsStrTruthy_none, hn, hjp]

theorem oaFrameStep_finish_fail {α : Type} (jp : String → Option α) (accept : Nat → Bool)
    (st : OAMach α) (hn : jsStrTruthy st.acc.name = true)
    (hjp : jp (argStrOf st.acc.arguments) = none) :
    oaFrameStep jp accept st mkOAFinishFrame = (st, Ctl.go) := by
  simp [oaFrameStep, oaToolPart, mkOAFinishFrame, jsStrTruthy_none, hn, hjp]

theorem oaFrameStep_finish_noname {α : Type} (jp : String → Option α) (accept : Nat → Bool)
    (st : OAMach α) (hn : jsStrTruthy st.acc.name = false) :
    oaFrameStep jp accept st mkOAFinishFrame = (st, Ctl.go) := by
  simp [oaFrameStep, oaToolPart, mkOAFinishFrame, jsStrTruthy_none, hn]

theorem oaFrames_cons_go {α : Type} (jp : String → Option α) (accept : Nat → Bool)
    {st st' : OAMach α} {f : OAFrame} (fs : List OAFrame)
    (h : oaFrameStep jp accept st f = (st', Ctl.go)) :
    oaFrames jp accept st (f :: fs) = oaFrames jp accept st' fs := by
  simp [oaFrames, h]

theorem oaFrames_argFrames {α : Type} (jp : String → Option α) (accept : Nat → Bool)
    (as : List String) :
    ∀ (st : OAMach α) (n s : String),
    st.acc = { name := some n, arguments := some s } → st.toolCallIndex = some 0 →
    oaFrames jp accept st (as.map (mkOAToolFrame none))
      = ({ st with
            acc := { name := some n, arguments := some (s ++ concatStrs as) },
            toolCallIndex := some 0 }, Ctl.go) := by
  induction as with
  | nil =>
      intro st n s hacc hidx
      simp only [List.map_nil, oaFrames, concatStrs, String.append_empty]
      cases st
      simp_all
  | cons a rest ih =>
      intro st n s hacc hidx
      rw [List.map_cons,
        oaFrames_cons_go jp accept _ (oaFrameStep_argFrame jp accept st n s a hacc)]
      rw [ih ({ st with acc := { name := some n, arguments := some (s ++ a) }, toolCallIndex := some 0 }) n (s ++ a) rfl rfl]
      simp [concatStrs, String.append_assoc]

theorem oaFrames_append_go {α : Type} (jp : String → Option α) (accept : Nat → Bool)
    (l1 l2 : List OAFrame) : ∀ st st' : OAMach α,
    oaFrames jp accept st l1 = (st', Ctl.go) →
    oaFrames jp accept st (l1 ++ l2) = oaFrames jp accept st' l2 := by
  induction l1 with
  | nil =>
      intro st st' h
      simp only [oaFrames] at h
      obtain ⟨rfl, -⟩ := Prod.mk.injEq .. ▸ (by exact h : (st, Ctl.go) = (st', Ctl.go))
      simp
  | cons f fs ih =>
      intro st st' h
      simp only [List.cons_append, oaFrames] at h ⊢
      cases hf : oaFrameStep jp accept st f with
      | mk st1 c =>
          rw [hf] at h
          cases c with
          | go => exact ih st1 st' h
          | abort => exact absurd h (by simp)

/- The same frame-level facts for the ai-gateway.ts loop (void
callback): its tool-call handling is line-identical. -/

theorem gwOaFrameStep_nameFrame {α : Type} (jp : String → Option α)
    (st : OAMach α) (n a : String) (hn : n ≠ "") :
    gwOaFrameStep jp st (mkOAToolFrame (some n) a)
      = { st with
          acc := { name := some n, arguments := some a },
          toolCallIndex := some 0 } := by
  by_cases ha : a = ""
  · subst ha
    simp [gwOaFrameStep, oaToolPart, mkOAToolFrame, oaApplyFrag, jsStrTruthy, hn]
  · simp [gwOaFrameStep, oaToolPart, mkOAToolFrame, oaApplyFrag, jsStrTruthy, hn, ha,
      String.empty_append]

theorem gwOaFrameStep_argFrame {α : Type} (jp : String → Option α)
    (st : OAMach α) (n s a : String)
    (hacc : st.acc = { name := some n, arguments := some s }) :
    gwOaFrameStep jp st (mkOAToolFrame none a)
      = { st with
          acc := { name := some n, arguments := some (s ++ a) },
          toolCallIndex := some 0 } := by
  by_cases ha : a = ""
  · subst ha
    simp [gwOaFrameStep, oaToolPart, mkOAToolFrame, oaApplyFrag, jsStrTruthy, hacc,
      String.append_empty]
  · simp [gwOaFrameStep, oaToolPart, mkOAToolFrame, oaApplyFrag, jsStrTruthy, hacc, ha]

theorem gwOaFrameStep_finish_emit {α : Type} (jp : String → Option α)
    (st : OAMach α) (v : α) (hn : jsStrTruthy st.acc.name = true)
    (hjp : jp (argStrOf st.acc.arguments) = some v) :
    gwOaFrameStep jp st mkOAFinishFrame
      = { st with
          trace := st.trace ++ [StreamEvent.tool (st.acc.name.getD "") v],
          acc := {}, toolCallIndex := none } := by
  simp [gwOaFrameStep, oaToolPart, mkOAFinishFrame, jsStrTruthy_none, hn, hjp]

theorem gwOaFrames_argFrames {α : Type} (jp : String → Option α)
    (as : List String) :
    ∀ (st : OAMach α) (n s : String),
    st.acc = { name := some n, arguments := some s } → st.toolCallIndex = some 0 →
    gwOaFrames jp st (as.map (mkOAToolFrame none))
      = { st with
          acc := { name := some n, arguments := some (s ++ concatStrs as) },
          toolCallIndex := some 0 } := by
  induction as with
  | nil =>
      intro st n s hacc hidx
      simp only [List.map_nil, gwOaFrames, concatStrs, String.append_empty]
      cases st
      simp_all
  | cons a rest ih =>
      intro st n s hacc hidx
      simp only [List.map_cons, gwOaFrames]
      rw [gwOaFrameStep_argFrame jp st n s a hacc]
      rw [ih ({ st with acc := { name := some n, arguments := some (s ++ a) }, toolCallIndex := some 0 }) n (s ++ a) rfl rfl]
      simp [concatStrs, String.append_assoc]

theorem gwOaFrames_append {α : Type} (jp : String → Option α)
    (l1 l2 : List OAFrame) : ∀ st : OAMach α,
    gwOaFrames jp st (l1 ++ l2) = gwOaFrames jp (gwOaFrames jp st l1) l2 := by
  induction l1 with
  | nil => intro st; simp [gwOaFrames]
  | cons f fs ih =>
      intro st
      simp only [List.cons_append, gwOaFrames]
      exact ih _

/-- C3: a family-A stream that delivers one tool call's name once and
splits its arguments JSON across consecutive delta frames (fragments
appended in arrival order), followed by a `finish_reason:"tool_calls"`
frame, produces exactly one tool-call event whose arguments are the
JSON-parse of the concatenated fragments, and zero text-delta events —
in both the streaming-endpoint loop and the ai-gateway.ts loop. -/
theorem c3_tool_call_reassembly :
    ∀ (α : Type) (jp : String → Option α) (accept : Nat → Bool)
      (n a0 : String) (rest : List String) (v : α),
      n ≠ "" → a0 ++ concatStrs rest ≠ "" →
      jp (a0 ++ concatStrs rest) = some v →
      oaFrames jp accept oaInit
          (mkOAToolFrame (some n) a0 :: (rest.map (mkOAToolFrame none) ++ [mkOAFinishFrame]))
        = (({ trace := [StreamEvent.tool n v] } : OAMach α), Ctl.go) ∧
      gwOaFrames jp oaInit
          (mkOAToolFrame (some n) a0 :: (rest.map (mkOAToolFrame none) ++ [mkOAFinishFrame]))
        = ({ trace := [StreamEvent.tool n v] } : OAMach α) := by
  intro α jp accept n a0 rest v hn hne hjp
  have hargs : argStrOf (some (a0 ++ concatStrs rest)) = a0 ++ concatStrs rest := by
    simp [argStrOf, hne]
  constructor
  · rw [oaFrames_cons_go jp accept _ (oaFrameStep_nameFrame jp accept oaInit n a0 hn)]
    rw [oaFrames_append_go jp accept _ [mkOAFinishFrame] _ _
      (oaFrames_argFrames jp accept rest ({ oaInit with acc := { name := some n, arguments := some a0 }, toolCallIndex := some 0 }) n a0 rfl rfl)]
    rw [oaFrames_cons_go jp accept []
      (oaFrameStep_finish_emit jp accept _ v (by simp [jsStrTruthy, hn]) (by rw [show ({ oaInit with acc := { name := some n, arguments := some (a0 ++ concatStrs rest) }, toolCallIndex := some 0 } : OAMach α).acc.arguments = some (a0 ++ concatStrs rest) from rfl, hargs]; exact hjp))]
    rfl
  · simp only [gwOaFrames]
    rw [gwOaFrameStep_nameFrame jp oaInit n a0 hn]
    rw [gwOaFrames_append]
    rw [gwOaFrames_argFrames jp rest ({ oaInit with acc := { name := some n, arguments := some a0 }, toolCallIndex := some 0 }) n a0 rfl rfl]
    simp only [gwOaFrames]
    rw [gwOaFrameStep_finish_emit jp _ v (by simp [jsStrTruthy, hn]) (by rw [show ({ oaInit with acc := { name := some n, arguments := some (a0 ++ concatStrs rest) }, toolCallIndex := some 0 } : OAMach α).acc.arguments = some (a0 ++ concatStrs rest) from rfl, hargs]; exact hjp)]
    rfl

/-- C3 witness: reassembly of a three-fragment argument payload. -/
theorem c3_tool_call_reassembly_witness :
    oaFrames (fun s => if s = "abcdef" then some 7 else none) (fun _ => true) oaInit
        (mkOAToolFrame (some "myTool") "ab" ::
          (["cd", "ef"].map (mkOAToolFrame none) ++ [mkOAFinishFrame]))
      = (({ trace := [StreamEvent.tool "myTool" 7] } : OAMach Nat), Ctl.go) :=
  (c3_tool_call_reassembly Nat (fun s => if s = "abcdef" then some 7 else none)
    (fun _ => true) "myTool" "ab" ["cd", "ef"] 7 (by decide) (by decide) (by decide)).1

def jpNoneNat : String → Option Nat := fun _ => none

def pfC7 : String → Option OAFrame :=
  fun s => if s = "A" then some (mkOAToolFrame (some "f") "x") else none

/-- C7 counterexample: when `JSON.parse` of the buffered arguments
throws at the `finish_reason:"tool_calls"` boundary, the accumulator
is NOT cleared (the clear sits after the parse, inside the `try`), and
at stream completion a pending accumulator is not finalized at all —
both contradicting the claim that the accumulator is finalized exactly
at boundaries or stream completion and discarded immediately after
every finalization attempt whether or not parsing succeeded. -/
theorem c7_counterexample :
    oaFrames jpNoneNat (fun _ => true) oaInit
        [mkOAToolFrame (some "f") "x", mkOAFinishFrame]
      = (({ acc := { name := some "f", arguments := some "x" },
            toolCallIndex := some 0 } : OAMach Nat), Ctl.go) ∧
    oaRun pfC7 jpNoneNat (fun _ => true) 0 oaInit
        [{ now := 1, read := some "data: A\n" }, { now := 2, read := none }]
      = { st := { buffer := "", acc := { name := some "f", arguments := some "x" },
                  toolCallIndex := some 0, trace := [], nChunks := 0 },
          outcome := .completed, cancelled := false, processedNows := [1, 2] } := by
  constructor
  · rfl
  · rfl

/-- C7 (amended): the tool-call accumulator is finalized exactly at
upstream call-boundary signals while it holds a name (family A: a
frame whose finish_reason is "tool_calls"; family B: a
`content_block_stop` frame) — not at stream completion — and it is
cleared exactly when parsing the buffered arguments succeeds: on a
successful parse one tool event is emitted and the accumulator is
discarded; on a parse failure no event is emitted and the accumulator
survives unchanged into subsequent processing; without a name the
boundary frame is a no-op. -/
theorem c7_finalization :
    ∀ (α : Type) (jp : String → Option α) (accept : Nat → Bool)
      (st : OAMach α) (sta : AnthMach α),
      (∀ v : α, jsStrTruthy st.acc.name = true →
        jp (argStrOf st.acc.arguments) = some v →
        oaFrameStep jp accept st mkOAFinishFrame
          = (({ st with
                trace := st.trace ++ [StreamEvent.tool (st.acc.name.getD "") v],
                acc := {}, toolCallIndex := none } : OAMach α), Ctl.go)) ∧
      (jsStrTruthy st.acc.name = true → jp (argStrOf st.acc.arguments) = none →
        oaFrameStep jp accept st mkOAFinishFrame = (st, Ctl.go)) ∧
      (jsStrTruthy st.acc.name = false →
        oaFrameStep jp accept st mkOAFinishFrame = (st, Ctl.go)) ∧
      (∀ v : α, jsStrTruthy sta.acc.name = true →
        jp (argStrOf sta.acc.input) = some v →
        anthFrameStep jp accept sta mkAnthStopFrame
          = (({ sta with
                trace := sta.trace ++ [StreamEvent.tool (sta.acc.name.getD "") v],
                acc := {} } : AnthMach α), Ctl.go)) ∧
      (jsStrTruthy sta.acc.name = true → jp (argStrOf sta.acc.input) = none →
        anthFrameStep jp accept sta mkAnthStopFrame = (sta, Ctl.go)) ∧
      (jsStrTruthy sta.acc.name = false →
        anthFrameStep jp accept sta mkAnthStopFrame = (sta, Ctl.go)) := by
  intro α jp accept st sta
  refine ⟨?_, ?_, ?_, ?_, ?_, ?_⟩
  · intro v hn hjp
    exact oaFrameStep_finish_emit jp accept st v hn hjp
  · intro hn hjp
    exact oaFrameStep_finish_fail jp accept st hn hjp
  · intro hn
    exact oaFrameStep_finish_noname jp accept st hn
  · intro v hn hjp
    simp [anthFrameStep, anthToolPart, mkAnthStopFrame, jsStrTruthy_none, hn, hjp]
  · intro hn hjp
    simp [anthFrameStep, anthToolPart, mkAnthStopFrame, jsStrTruthy_none, hn, hjp]
  · intro hn
    simp [anthFrameStep, anthToolPart, mkAnthStopFrame, jsStrTruthy_none, hn]

/-- C7 witness: the amended theorem applied at concrete accumulator
states — a successful parse clears the accumulator and emits, a
failing parse leaves the machine untouched. -/
theorem c7_finalization_witness :
    oaFrameStep (fun s => if s = "xy" then some 3 else none) (fun _ => true)
        ({ acc := { name := some "f", arguments := some "xy" } } : OAMach Nat)
        mkOAFinishFrame
      = (({ trace := [StreamEvent.tool "f" 3] } : OAMach Nat), Ctl.go) ∧
    anthFrameStep jpNoneNat (fun _ => true)
        ({ acc := { name := some "g", id := none, input := some "zz" } } : AnthMach Nat)
        mkAnthStopFrame
      = (({ acc := { name := some "g", id := none, input := some "zz" } } :
          AnthMach Nat), Ctl.go) := by
  have h := c7_finalization Nat (fun s => if s = "xy" then some 3 else none) (fun _ => true)
    ({ acc := { name := some "f", arguments := some "xy" } } : OAMach Nat)
    ({ acc := { name := some "g", id := none, input := some "zz" } } : AnthMach Nat)
  constructor
  · have h1 := h.1 3 (by decide) (by decide)
    simpa using h1
  · have h5 := h.2.2.2.2.1 (by decide) (by decide)
    simpa using h5

theorem oaLineStep_skip {α : Type} (pf : String → Option OAFrame)
    (jp : String → Option α) (accept : Nat → Bool) (st : OAMach α) (bad : String)
    (hpf : pf (strTrim (strDrop bad 6)) = none) :
    oaLineStep pf jp accept st bad = (st, Ctl.go) := by
  unfold oaLineStep
  by_cases hs : strStartsWith bad "data: " = true
  · rw [hs]
    simp only [if_true]
    by_cases hd : (strTrim (strDrop bad 6) == "[DONE]") = true
    · simp [hd]
    · simp [hd, hpf]
  · simp [hs]

theorem anthLineStep_skip {α : Type} (pf : String → Option AnthFrame)
    (jp : String → Option α) (accept : Nat → Bool) (st : AnthMach α) (bad : String)
    (hpf : pf (strTrim (strDrop bad 6)) = none) :
    anthLineStep pf jp accept st bad = (st, Ctl.go) := by
  unfold anthLineStep
  by_cases hs : strStartsWith bad "data: " = true
  · rw [hs]
    simp [hpf]
  · simp [hs]

/-- C10: a complete `data: `-framed event whose payload fails to parse
as JSON is skipped without aborting the decode loop: for both provider
families, processing a line sequence containing such a frame is
identical (same final state — accumulator included —, same emitted
events, same control outcome) to processing the sequence with the
frame removed; in particular no error is raised and no callback is
invoked for the bad frame. -/
theorem c10_malformed_frame_skipped :
    ∀ (α : Type) (pf : String → Option OAFrame) (pfa : String → Option AnthFrame)
      (jp : String → Option α) (accept : Nat → Bool)
      (st : OAMach α) (sta : AnthMach α) (l1 l2 : List String) (bad : String),
      strStartsWith bad "data: " = true →
      (pf (strTrim (strDrop bad 6)) = none →
        oaLinesStep pf jp accept st (l1 ++ bad :: l2)
          = oaLinesStep pf jp accept st (l1 ++ l2)) ∧
      (pfa (strTrim (strDrop bad 6)) = none →
        anthLinesStep pfa jp accept sta (l1 ++ bad :: l2)
          = anthLinesStep pfa jp accept sta (l1 ++ l2)) := by
  intro α pf pfa jp accept st sta l1 l2 bad hs
  constructor
  · intro hpf
    induction l1 generalizing st with
    | nil =>
        simp only [List.nil_append, oaLinesStep]
        rw [oaLineStep_skip pf jp accept st bad hpf]
    | cons l ls ih =>
        simp only [List.cons_append, oaLinesStep]
        cases h : oaLineStep pf jp accept st l with
        | mk st' c =>
            cases c with
            | go => exact ih st'
            | abort => rfl
  · intro hpf
    induction l1 generalizing sta with
    | nil =>
        simp only [List.nil_append, anthLinesStep]
        rw [anthLineStep_skip pfa jp accept sta bad hpf]
    | cons l ls ih =>
        simp only [List.cons_append, anthLinesStep]
        cases h : anthLineStep pfa jp accept sta l with
        | mk st' c =>
            cases c with
            | go => exact ih st'
            | abort => rfl

/-- C10 witness: a malformed frame between two ignored lines changes
nothing. -/
theorem c10_malformed_frame_skipped_witness :
    oaLinesStep (fun _ => none) jpNoneNat (fun _ => true) oaInit
        (["x"] ++ "data: notjson" :: ["y"])
      = oaLinesStep (fun _ => none) jpNoneNat (fun _ => true) oaInit (["x"] ++ ["y"]) :=
  (c10_malformed_frame_skipped Nat (fun _ => none) (fun _ => none) jpNoneNat
    (fun _ => true) oaInit anthInit ["x"] ["y"] "data: notjson" (by decide)).1 rfl

/- ===================================================================
   Cancellation (C4) and timeout (C5) machinery: trace bookkeeping for
   the callback contract of the streaming decode loops.
   =================================================================== -/

/-- Number of text-delta callback invocations recorded in a trace. -/
def chunkCount {α : Type} : List (StreamEvent α) → Nat
  | [] => 0
  | StreamEvent.chunk _ :: es => chunkCount es + 1
  | StreamEvent.tool _ _ :: es => chunkCount es

/-- Every text-delta callback in the trace returned true (`accept i`
is the value the callback returns at its i-th invocation). -/
def allAccepted {α : Type} (accept : Nat → Bool) : Nat → List (StreamEvent α) → Bool
  | _, [] => true
  | i, StreamEvent.tool _ _ :: es => allAccepted accept i es
  | i, StreamEvent.chunk _ :: es => accept i && allAccepted accept (i + 1) es

/-- No callback of any kind follows a text-delta callback that
returned false. -/
def cleanFrom {α : Type} (accept : Nat → Bool) : Nat → List (StreamEvent α) → Bool
  | _, [] => true
  | i, StreamEvent.tool _ _ :: es => cleanFrom accept i es
  | i, StreamEvent.chunk _ :: es =>
      if accept i then cleanFrom accept (i + 1) es else es.isEmpty

theorem chunkCount_append_tool {α : Type} (es : List (StreamEvent α)) (nm : String) (v : α) :
    chunkCount (es ++ [StreamEvent.tool nm v]) = chunkCount es := by
  induction es with
  | nil => rfl
  | cons e es ih => cases e <;> simp [chunkCount, ih]

theorem chunkCount_append_chunk {α : Type} (es : List (StreamEvent α)) (c : String) :
    chunkCount (es ++ [StreamEvent.chunk c]) = chunkCount es + 1 := by
  induction es with
  | nil => rfl
  | cons e es ih => cases e <;> simp [chunkCount, ih]

theorem allAccepted_append_tool {α : Type} (accept : Nat → Bool)
    (es : List (StreamEvent α)) (nm : String) (v : α) : ∀ i,
    allAccepted accept i (es ++ [StreamEvent.tool nm v]) = allAccepted accept i es := by
  induction es with
  | nil => intro i; rfl
  | cons e es ih => intro i; cases e <;> simp [allAccepted, ih]

theorem allAccepted_append_chunk {α : Type} (accept : Nat → Bool)
    (es : List (StreamEvent α)) (c : String) : ∀ i,
    allAccepted accept i (es ++ [StreamEvent.chunk c])
      = (allAccepted accept i es && accept (i + chunkCount es)) := by
  induction es with
  | nil => intro i; simp [allAccepted, chunkCount]
  | cons e es ih =>
      intro i
      cases e with
      | tool nm v => simp [allAccepted, chunkCount, ih]
      | chunk c' =>
          rw [List.cons_append]
          simp only [allAccepted, chunkCount]
          rw [ih (i + 1), Bool.and_assoc]
          have harith : i + 1 + chunkCount es = i + (chunkCount es + 1) := by omega
          rw [harith]

theorem allAccepted_imp_cleanFrom {α : Type} (accept : Nat → Bool)
    (es : List (StreamEvent α)) : ∀ i,
    allAccepted accept i es = true → cleanFrom accept i es = true := by
  induction es with
  | nil => intro i _; rfl
  | cons e es ih =>
      intro i h
      cases e with
      | tool nm v => exact ih i h
      | chunk c =>
          simp only [allAccepted, Bool.and_eq_true] at h
          simp [cleanFrom, h.1, ih (i + 1) h.2]

theorem cleanFrom_append_reject {α : Type} (accept : Nat → Bool)
    (es : List (StreamEvent α)) (c : String) : ∀ i,
    allAccepted accept i es = true →
    cleanFrom accept i (es ++ [StreamEvent.chunk c]) = true := by
  induction es with
  | nil =>
      intro i _
      cases hacc : accept i <;> simp [cleanFrom, hacc]
  | cons e es ih =>
      intro i h
      cases e with
      | tool nm v => exact ih i h
      | chunk c' =>
          simp only [allAccepted, Bool.and_eq_true] at h
          simp [cleanFrom, h.1, ih (i + 1) h.2]

/-- Observable effect of one family-A frame on the callback trace:
either nothing is emitted, or a rejected text delta aborts, or an
accepted text delta (possibly followed by a finalized tool call)
continues, or a tool call alone is emitted. -/
theorem oaToolPart_shape {α : Type} (jp : String → Option α)
    (st1 : OAMach α) (choice : OAChoice) (delta : OADelta) :
    ((oaToolPart jp st1 choice delta).trace = st1.trace ∧
      (oaToolPart jp st1 choice delta).nChunks = st1.nChunks) ∨
    (∃ nm v, (oaToolPart jp st1 choice delta).trace = st1.trace ++ [StreamEvent.tool nm v] ∧
      (oaToolPart jp st1 choice delta).nChunks = st1.nChunks) := by
  simp only [oaToolPart]
  split
  · split
    · exact Or.inr ⟨_, _, rfl, rfl⟩
    · exact Or.inl ⟨rfl, rfl⟩
  · exact Or.inl ⟨rfl, rfl⟩

/-- Observable effect of one family-A frame on the callback trace:
either nothing is emitted, or a rejected text delta aborts, or an
accepted text delta (possibly followed by a finalized tool call)
continues, or a tool call alone is emitted. -/
theorem oaFrameStep_shape {α : Type} (jp : String → Option α) (accept : Nat → Bool)
    (st : OAMach α) (fr : OAFrame) :
    (∃ st', oaFrameStep jp accept st fr = (st', Ctl.go) ∧
      st'.trace = st.trace ∧ st'.nChunks = st.nChunks) ∨
    (∃ c st', accept st.nChunks = false ∧
      oaFrameStep jp accept st fr = (st', Ctl.abort) ∧
      st'.trace = st.trace ++ [StreamEvent.chunk c] ∧ st'.nChunks = st.nChunks + 1) ∨
    (∃ c st', accept st.nChunks = true ∧
      oaFrameStep jp accept st fr = (st', Ctl.go) ∧
      (st'.trace = st.trace ++ [StreamEvent.chunk c] ∨
        ∃ nm v, st'.trace = (st.trace ++ [StreamEvent.chunk c]) ++ [StreamEvent.tool nm v]) ∧
      st'.nChunks = st.nChunks + 1) ∨
    (∃ nm v st', oaFrameStep jp accept st fr = (st', Ctl.go) ∧
      st'.trace = st.trace ++ [StreamEvent.tool nm v] ∧ st'.nChunks = st.nChunks) := by
  simp only [oaFrameStep]
  split
  · exact Or.inl ⟨st, rfl, rfl, rfl⟩
  · split
    · exact Or.inl ⟨st, rfl, rfl, rfl⟩
    · rename_i x1 choice h1 x2 delta h2
      split
      · rename_i hcontent
        split
        · rename_i haccept
          rcases oaToolPart_shape jp { st with trace := st.trace ++ [StreamEvent.chunk (delta.content.getD "")], nChunks := st.nChunks + 1 } choice delta with ⟨ht, hn⟩ | ⟨nm, v, ht, hn⟩
          · refine Or.inr (Or.inr (Or.inl ⟨delta.content.getD "", _, haccept, rfl, Or.inl ?_, ?_⟩))
            · rw [ht]
            · rw [hn]
          · refine Or.inr (Or.inr (Or.inl ⟨delta.content.getD "", _, haccept, rfl, Or.inr ⟨nm, v, ?_⟩, ?_⟩))
            · rw [ht]
            · rw [hn]
        · rename_i haccept
          refine Or.inr (Or.inl ⟨delta.content.getD "", _, ?_, rfl, rfl, rfl⟩)
          simpa using haccept
      · rcases oaToolPart_shape jp st choice delta with ⟨ht, hn⟩ | ⟨nm, v, ht, hn⟩
        · exact Or.inl ⟨_, rfl, ht, hn⟩
        · exact Or.inr (Or.inr (Or.inr ⟨nm, v, _, rfl, ht, hn⟩))

theorem anthToolPart_shape {α : Type} (jp : String → Option α)
    (st1 : AnthMach α) (fr : AnthFrame) :
    ((anthToolPart jp st1 fr).trace = st1.trace ∧
      (anthToolPart jp st1 fr).nChunks = st1.nChunks) ∨
    (∃ nm v, (anthToolPart jp st1 fr).trace = st1.trace ++ [StreamEvent.tool nm v] ∧
      (anthToolPart jp st1 fr).nChunks = st1.nChunks) := by
  simp only [anthToolPart]
  split
  · split
    · split
      · split
        · exact Or.inr ⟨_, _, rfl, rfl⟩
        · exact Or.inl ⟨rfl, rfl⟩
      · exact Or.inl ⟨rfl, rfl⟩
    · split
      · split
        · exact Or.inr ⟨_, _, rfl, rfl⟩
        · exact Or.inl ⟨rfl, rfl⟩
      · exact Or.inl ⟨rfl, rfl⟩
  · split
    · split
      · split
        · exact Or.inr ⟨_, _, rfl, rfl⟩
        · exact Or.inl ⟨rfl, rfl⟩
      · exact Or.inl ⟨rfl, rfl⟩
    · split
      · split
        · exact Or.inr ⟨_, _, rfl, rfl⟩
        · exact Or.inl ⟨rfl, rfl⟩
      · exact Or.inl ⟨rfl, rfl⟩

/-- Observable effect of one family-B frame on the callback trace. -/
theorem anthFrameStep_shape {α : Type} (jp : String → Option α) (accept : Nat → Bool)
    (st : AnthMach α) (fr : AnthFrame) :
    (∃ st', anthFrameStep jp accept st fr = (st', Ctl.go) ∧
      st'.trace = st.trace ∧ st'.nChunks = st.nChunks) ∨
    (∃ c st', accept st.nChunks = false ∧
      anthFrameStep jp accept st fr = (st', Ctl.abort) ∧
      st'.trace = st.trace ++ [StreamEvent.chunk c] ∧ st'.nChunks = st.nChunks + 1) ∨
    (∃ c st', accept st.nChunks = true ∧
      anthFrameStep jp accept st fr = (st', Ctl.go) ∧
      (st'.trace = st.trace ++ [StreamEvent.chunk c] ∨
        ∃ nm v, st'.trace = (st.trace ++ [StreamEvent.chunk c]) ++ [StreamEvent.tool nm v]) ∧
      st'.nChunks = st.nChunks + 1) ∨
    (∃ nm v st', anthFrameStep jp accept st fr = (st', Ctl.go) ∧
      st'.trace = st.trace ++ [StreamEvent.tool nm v] ∧ st'.nChunks = st.nChunks) := by
  simp only [anthFrameStep]
  split
  · rename_i htext
    split
    · rename_i haccept
      rcases anthToolPart_shape jp { st with trace := st.trace ++ [StreamEvent.chunk ((fr.delta.bind AnthDelta.text).getD "")], nChunks := st.nChunks + 1 } fr with ⟨ht, hn⟩ | ⟨nm, v, ht, hn⟩
      · refine Or.inr (Or.inr (Or.inl ⟨(fr.delta.bind AnthDelta.text).getD "", _, haccept, rfl, Or.inl ?_, ?_⟩))
        · rw [ht]
        · rw [hn]
      · refine Or.inr (Or.inr (Or.inl ⟨(fr.delta.bind AnthDelta.text).getD "", _, haccept, rfl, Or.inr ⟨nm, v, ?_⟩, ?_⟩))
        · rw [ht]
        · rw [hn]
    · rename_i haccept
      refine Or.inr (Or.inl ⟨(fr.delta.bind AnthDelta.text).getD "", _, ?_, rfl, rfl, rfl⟩)
      simpa using haccept
  · rcases anthToolPart_shape jp st fr with ⟨ht, hn⟩ | ⟨nm, v, ht, hn⟩
    · exact Or.inl ⟨_, rfl, ht, hn⟩
    · exact Or.inr (Or.inr (Or.inr ⟨nm, v, _, rfl, ht, hn⟩))

/-- The shape facts lift from frames to lines: a non-`data:` line, the
`[DONE]` sentinel and an unparseable payload are no-ops. -/
theorem oaLineStep_shape {α : Type} (pf : String → Option OAFrame)
    (jp : String → Option α) (accept : Nat → Bool) (st : OAMach α) (line : String) :
    (∃ st', oaLineStep pf jp accept st line = (st', Ctl.go) ∧
      st'.trace = st.trace ∧ st'.nChunks = st.nChunks) ∨
    (∃ c st', accept st.nChunks = false ∧
      oaLineStep pf jp accept st line = (st', Ctl.abort) ∧
      st'.trace = st.trace ++ [StreamEvent.chunk c] ∧ st'.nChunks = st.nChunks + 1) ∨
    (∃ c st', accept st.nChunks = true ∧
      oaLineStep pf jp accept st line = (st', Ctl.go) ∧
      (st'.trace = st.trace ++ [StreamEvent.chunk c] ∨
        ∃ nm v, st'.trace = (st.trace ++ [StreamEvent.chunk c]) ++ [StreamEvent.tool nm v]) ∧
      st'.nChunks = st.nChunks + 1) ∨
    (∃ nm v st', oaLineStep pf jp accept st line = (st', Ctl.go) ∧
      st'.trace = st.trace ++ [StreamEvent.tool nm v] ∧ st'.nChunks = st.nChunks) := by
  simp only [oaLineStep]
  split
  · split
    · exact Or.inl ⟨st, rfl, rfl, rfl⟩
    · split
      · exact Or.inl ⟨st, rfl, rfl, rfl⟩
      · exact oaFrameStep_shape jp accept st _
  · exact Or.inl ⟨st, rfl, rfl, rfl⟩

theorem anthLineStep_shape {α : Type} (pf : String → Option AnthFrame)
    (jp : String → Option α) (accept : Nat → Bool) (st : AnthMach α) (line : String) :
    (∃ st', anthLineStep pf jp accept st line = (st', Ctl.go) ∧
      st'.trace = st.trace ∧ st'.nChunks = st.nChunks) ∨
    (∃ c st', accept st.nChunks = false ∧
      anthLineStep pf jp accept st line = (st', Ctl.abort) ∧
      st'.trace = st.trace ++ [StreamEvent.chunk c] ∧ st'.nChunks = st.nChunks + 1) ∨
    (∃ c st', accept st.nChunks = true ∧
      anthLineStep pf jp accept st line = (st', Ctl.go) ∧
      (st'.trace = st.trace ++ [StreamEvent.chunk c] ∨
        ∃ nm v, st'.trace = (st.trace ++ [StreamEvent.chunk c]) ++ [StreamEvent.tool nm v]) ∧
      st'.nChunks = st.nChunks + 1) ∨
    (∃ nm v st', anthLineStep pf jp accept st line = (st', Ctl.go) ∧
      st'.trace = st.trace ++ [StreamEvent.tool nm v] ∧ st'.nChunks = st.nChunks) := by
  simp only [anthLineStep]
  split
  · split
    · exact Or.inl ⟨st, rfl, rfl, rfl⟩
    · exact anthFrameStep_shape jp accept st _
  · exact Or.inl ⟨st, rfl, rfl, rfl⟩

theorem oaLinesStep_inv {α : Type} (pf : String → Option OAFrame) (jp : String → Option α)
    (accept : Nat → Bool) (lines : List String) :
    ∀ (st : OAMach α),
    allAccepted accept 0 st.trace = true → st.nChunks = chunkCount st.trace →
    (∀ st', oaLinesStep pf jp accept st lines = (st', Ctl.go) →
      allAccepted accept 0 st'.trace = true ∧ st'.nChunks = chunkCount st'.trace) ∧
    (∀ st', oaLinesStep pf jp accept st lines = (st', Ctl.abort) →
      cleanFrom accept 0 st'.trace = true ∧ allAccepted accept 0 st'.trace = false) := by
  induction lines with
  | nil =>
      intro st hA hC
      constructor
      · intro st' h
        simp only [oaLinesStep] at h
        injection h with h1 h2
        subst h1
        exact ⟨hA, hC⟩
      · intro st' h
        simp only [oaLinesStep] at h
        injection h with h1 h2
        exact nomatch h2
  | cons l ls ih =>
      intro st hA hC
      rcases oaLineStep_shape pf jp accept st l with
        ⟨s1, he, ht, hn⟩ | ⟨c, s1, hacc, he, ht, hn⟩ |
        ⟨c, s1, hacc, he, htor, hn⟩ | ⟨nm, v, s1, he, ht, hn⟩
      · have hA1 : allAccepted accept 0 s1.trace = true := by rw [ht]; exact hA
        have hC1 : s1.nChunks = chunkCount s1.trace := by rw [hn, ht]; exact hC
        constructor
        · intro st' h
          simp only [oaLinesStep, he] at h
          exact (ih s1 hA1 hC1).1 st' h
        · intro st' h
          simp only [oaLinesStep, he] at h
          exact (ih s1 hA1 hC1).2 st' h
      · constructor
        · intro st' h
          simp only [oaLinesStep, he] at h
          injection h with h1 h2
          exact nomatch h2
        · intro st' h
          simp only [oaLinesStep, he] at h
          injection h with h1 h2
          subst h1
          have h0 : (0 : Nat) + chunkCount st.trace = st.nChunks := by omega
          refine ⟨?_, ?_⟩
          · rw [ht]
            exact cleanFrom_append_reject accept st.trace c 0 hA
          · rw [ht, allAccepted_append_chunk accept st.trace c 0, hA, h0, hacc]
            rfl
      · have h0 : (0 : Nat) + chunkCount st.trace = st.nChunks := by omega
        have hA1 : allAccepted accept 0 s1.trace = true := by
          rcases htor with ht | ⟨nm, v, ht⟩
          · rw [ht, allAccepted_append_chunk accept st.trace c 0, hA, h0, hacc]
            rfl
          · rw [ht, allAccepted_append_tool accept _ nm v 0,
              allAccepted_append_chunk accept st.trace c 0, hA, h0, hacc]
            rfl
        have hC1 : s1.nChunks = chunkCount s1.trace := by
          rcases htor with ht | ⟨nm, v, ht⟩
          · rw [hn, ht, chunkCount_append_chunk, hC]
          · rw [hn, ht, chunkCount_append_tool, chunkCount_append_chunk, hC]
        constructor
        · intro st' h
          simp only [oaLinesStep, he] at h
          exact (ih s1 hA1 hC1).1 st' h
        · intro st' h
          simp only [oaLinesStep, he] at h
          exact (ih s1 hA1 hC1).2 st' h
      · have hA1 : allAccepted accept 0 s1.trace = true := by
          rw [ht, allAccepted_append_tool accept _ nm v 0]
          exact hA
        have hC1 : s1.nChunks = chunkCount s1.trace := by
          rw [hn, ht, chunkCount_append_tool, hC]
        constructor
        · intro st' h
          simp only [oaLinesStep, he] at h
          exact (ih s1 hA1 hC1).1 st' h
        · intro st' h
          simp only [oaLinesStep, he] at h
          exact (ih s1 hA1 hC1).2 st' h

theorem oaRun_inv {α : Type} (pf : String → Option OAFrame) (jp : String → Option α)
    (accept : Nat → Bool) (startTime : Nat) (steps : List OAStep) :
    ∀ (st : OAMach α),
    allAccepted accept 0 st.trace = true → st.nChunks = chunkCount st.trace →
    cleanFrom accept 0 (oaRun pf jp accept startTime st steps).st.trace = true ∧
    ((oaRun pf jp accept startTime st steps).outcome ≠ StreamOutcome.aborted →
      allAccepted accept 0 (oaRun pf jp accept startTime st steps).st.trace = true) ∧
    ((oaRun pf jp accept startTime st steps).outcome = StreamOutcome.aborted →
      (oaRun pf jp accept startTime st steps).cancelled = true) := by
  induction steps with
  | nil =>
      intro st hA hC
      simp only [oaRun]
      exact ⟨allAccepted_imp_cleanFrom accept _ 0 hA, fun _ => hA, fun h => nomatch h⟩
  | cons step rest ih =>
      intro st hA hC
      simp only [oaRun]
      split
      · exact ⟨allAccepted_imp_cleanFrom accept _ 0 hA, fun _ => hA, fun h => nomatch h⟩
      · split
        · exact ⟨allAccepted_imp_cleanFrom accept _ 0 hA, fun _ => hA, fun h => nomatch h⟩
        · rename_i chunk hread
          have hinv := oaLinesStep_inv pf jp accept
            (splitBuffered (st.buffer ++ chunk)).1
            { st with buffer := (splitBuffered (st.buffer ++ chunk)).2 } hA hC
          cases hls : oaLinesStep pf jp accept
              { st with buffer := (splitBuffered (st.buffer ++ chunk)).2 }
              (splitBuffered (st.buffer ++ chunk)).1 with
          | mk st2 c =>
              cases c with
              | go =>
                  obtain ⟨hA2, hC2⟩ := hinv.1 st2 hls
                  have hrest := ih st2 hA2 hC2
                  simp only [hls]
                  exact ⟨hrest.1, hrest.2.1, hrest.2.2⟩
              | abort =>
                  obtain ⟨hclean, hfalse⟩ := hinv.2 st2 hls
                  simp only [hls]
                  refine ⟨hclean, ?_, ?_⟩ <;> simp

theorem anthLinesStep_inv {α : Type} (pf : String → Option AnthFrame)
    (jp : String → Option α) (accept : Nat → Bool) (lines : List String) :
    ∀ (st : AnthMach α),
    allAccepted accept 0 st.trace = true → st.nChunks = chunkCount st.trace →
    (∀ st', anthLinesStep pf jp accept st lines = (st', Ctl.go) →
      allAccepted accept 0 st'.trace = true ∧ st'.nChunks = chunkCount st'.trace) ∧
    (∀ st', anthLinesStep pf jp accept st lines = (st', Ctl.abort) →
      cleanFrom accept 0 st'.trace = true ∧ allAccepted accept 0 st'.trace = false) := by
  induction lines with
  | nil =>
      intro st hA hC
      constructor
      · intro st' h
        simp only [anthLinesStep] at h
        injection h with h1 h2
        subst h1
        exact ⟨hA, hC⟩
      · intro st' h
        simp only [anthLinesStep] at h
        injection h with h1 h2
        exact nomatch h2
  | cons l ls ih =>
      intro st hA hC
      rcases anthLineStep_shape pf jp accept st l with
        ⟨s1, he, ht, hn⟩ | ⟨c, s1, hacc, he, ht, hn⟩ |
        ⟨c, s1, hacc, he, htor, hn⟩ | ⟨nm, v, s1, he, ht, hn⟩
      · have hA1 : allAccepted accept 0 s1.trace = true := by rw [ht]; exact hA
        have hC1 : s1.nChunks = chunkCount s1.trace := by rw [hn, ht]; exact hC
        constructor
        · intro st' h
          simp only [anthLinesStep, he] at h
          exact (ih s1 hA1 hC1).1 st' h
        · intro st' h
          simp only [anthLinesStep, he] at h
          exact (ih s1 hA1 hC1).2 st' h
      · constructor
        · intro st' h
          simp only [anthLinesStep, he] at h
          injection h with h1 h2
          exact nomatch h2
        · intro st' h
          simp only [anthLinesStep, he] at h
          injection h with h1 h2
          subst h1
          have h0 : (0 : Nat) + chunkCount st.trace = st.nChunks := by omega
          refine ⟨?_, ?_⟩
          · rw [ht]
            exact cleanFrom_append_reject accept st.trace c 0 hA
          · rw [ht, allAccepted_append_chunk accept st.trace c 0, hA, h0, hacc]
            rfl
      · have h0 : (0 : Nat) + chunkCount st.trace = st.nChunks := by omega
        have hA1 : allAccepted accept 0 s1.trace = true := by
          rcases htor with ht | ⟨nm, v, ht⟩
          · rw [ht, allAccepted_append_chunk accept st.trace c 0, hA, h0, hacc]
            rfl
          · rw [ht, allAccepted_append_tool accept _ nm v 0,
              allAccepted_append_chunk accept st.trace c 0, hA, h0, hacc]
            rfl
        have hC1 : s1.nChunks = chunkCount s1.trace := by
          rcases htor with ht | ⟨nm, v, ht⟩
          · rw [hn, ht, chunkCount_append_chunk, hC]
          · rw [hn, ht, chunkCount_append_tool, chunkCount_append_chunk, hC]
        constructor
        · intro st' h
          simp only [anthLinesStep, he] at h
          exact (ih s1 hA1 hC1).1 st' h
        · intro st' h
          simp only [anthLinesStep, he] at h
          exact (ih s1 hA1 hC1).2 st' h
      · have hA1 : allAccepted accept 0 s1.trace = true := by
          rw [ht, allAccepted_append_tool accept _ nm v 0]
          exact hA
        have hC1 : s1.nChunks = chunkCount s1.trace := by
          rw [hn, ht, chunkCount_append_tool, hC]
        constructor
        · intro st' h
          simp only [anthLinesStep, he] at h
          exact (ih s1 hA1 hC1).1 st' h
        · intro st' h
          simp only [anthLinesStep, he] at h
          exact (ih s1 hA1 hC1).2 st' h

theorem anthRun_inv {α : Type} (pf : String → Option AnthFrame) (jp : String → Option α)
    (accept : Nat → Bool) (startTime : Nat) (steps : List OAStep) :
    ∀ (st : AnthMach α),
    allAccepted accept 0 st.trace = true → st.nChunks = chunkCount st.trace →
    cleanFrom accept 0 (anthRun pf jp accept startTime st steps).st.trace = true ∧
    ((anthRun pf jp accept startTime st steps).outcome ≠ StreamOutcome.aborted →
      allAccepted accept 0 (anthRun pf jp accept startTime st steps).st.trace = true) ∧
    ((anthRun pf jp accept startTime st steps).outcome = StreamOutcome.aborted →
      (anthRun pf jp accept startTime st steps).cancelled = true) := by
  induction steps with
  | nil =>
      intro st hA hC
      simp only [anthRun]
      exact ⟨allAccepted_imp_cleanFrom accept _ 0 hA, fun _ => hA, fun h => nomatch h⟩
  | cons step rest ih =>
      intro st hA hC
      simp only [anthRun]
      split
      · exact ⟨allAccepted_imp_cleanFrom accept _ 0 hA, fun _ => hA, fun h => nomatch h⟩
      · split
        · exact ⟨allAccepted_imp_cleanFrom accept _ 0 hA, fun _ => hA, fun h => nomatch h⟩
        · rename_i chunk hread
          have hinv := anthLinesStep_inv pf jp accept
            (splitBuffered (st.buffer ++ chunk)).1
            { st with buffer := (splitBuffered (st.buffer ++ chunk)).2 } hA hC
          cases hls : anthLinesStep pf jp accept
              { st with buffer := (splitBuffered (st.buffer ++ chunk)).2 }
              (splitBuffered (st.buffer ++ chunk)).1 with
          | mk st2 c =>
              cases c with
              | go =>
                  obtain ⟨hA2, hC2⟩ := hinv.1 st2 hls
                  have hrest := ih st2 hA2 hC2
                  simp only [hls]
                  exact ⟨hrest.1, hrest.2.1, hrest.2.2⟩
              | abort =>
                  obtain ⟨hclean, hfalse⟩ := hinv.2 st2 hls
                  simp only [hls]
                  refine ⟨hclean, ?_, ?_⟩ <;> simp

/-- C4: in both streaming decode loops, whenever the `onChunk`
callback returns false at some invocation, the run returns the aborted
outcome (a normal return, not a raised error), the upstream reader is
cancelled, and no further text-delta or tool-call callback is invoked
after the rejected one (the rejected invocation is the last event of
the trace); and in every run, unconditionally, no callback ever
follows a rejected one. -/
theorem c4_cancellation :
    ∀ (α : Type) (pf : String → Option OAFrame) (pfa : String → Option AnthFrame)
      (jp : String → Option α) (accept : Nat → Bool) (startTime : Nat)
      (steps : List OAStep),
      (cleanFrom accept 0 (oaRun pf jp accept startTime oaInit steps).st.trace = true) ∧
      (allAccepted accept 0 (oaRun pf jp accept startTime oaInit steps).st.trace = false →
        (oaRun pf jp accept startTime oaInit steps).outcome = StreamOutcome.aborted ∧
        (oaRun pf jp accept startTime oaInit steps).cancelled = true) ∧
      (cleanFrom accept 0 (anthRun pfa jp accept startTime anthInit steps).st.trace = true) ∧
      (allAccepted accept 0 (anthRun pfa jp accept startTime anthInit steps).st.trace = false →
        (anthRun pfa jp accept startTime anthInit steps).outcome = StreamOutcome.aborted ∧
        (anthRun pfa jp accept startTime anthInit steps).cancelled = true) := by
  intro α pf pfa jp accept startTime steps
  obtain ⟨hcl, hgo, hab⟩ := oaRun_inv pf jp accept startTime steps oaInit rfl rfl
  obtain ⟨hcl', hgo', hab'⟩ := anthRun_inv pfa jp accept startTime steps anthInit rfl rfl
  refine ⟨hcl, ?_, hcl', ?_⟩
  · intro hfalse
    by_cases hout : (oaRun pf jp accept startTime oaInit steps).outcome
        = StreamOutcome.aborted
    · exact ⟨hout, hab hout⟩
    · exact absurd (hgo hout) (by simp [hfalse])
  · intro hfalse
    by_cases hout : (anthRun pfa jp accept startTime anthInit steps).outcome
        = StreamOutcome.aborted
    · exact ⟨hout, hab' hout⟩
    · exact absurd (hgo' hout) (by simp [hfalse])

def contentFrameC : OAFrame :=
  { choices := [{ delta := some { content := some "hi" } }] }

def pfC4 : String → Option OAFrame :=
  fun s => if s = "C" then some contentFrameC else none

/-- C4 witness: a caller that is already disconnected at the first
text delta (the callback returns false at invocation 0) makes the
family-A run abort and cancel the reader. -/
theorem c4_cancellation_witness :
    (oaRun pfC4 jpNoneNat (fun _ => false) 0 oaInit
        [{ now := 1, read := some "data: C\ndata: C\n" }]).outcome
      = StreamOutcome.aborted ∧
    (oaRun pfC4 jpNoneNat (fun _ => false) 0 oaInit
        [{ now := 1, read := some "data: C\ndata: C\n" }]).cancelled = true :=
  (c4_cancellation Nat pfC4 (fun _ => none) jpNoneNat (fun _ => false) 0
    [{ now := 1, read := some "data: C\ndata: C\n" }]).2.1 (by decide)

theorem oaRun_time {α : Type} (pf : String → Option OAFrame) (jp : String → Option α)
    (accept : Nat → Bool) (startTime : Nat) (steps : List OAStep) :
    ∀ (st : OAMach α),
    (∀ t ∈ (oaRun pf jp accept startTime st steps).processedNows,
      t - startTime ≤ streamTimeout) ∧
    ((oaRun pf jp accept startTime st steps).outcome = StreamOutcome.timedOut →
      (oaRun pf jp accept startTime st steps).cancelled = true) ∧
    ((∀ s ∈ steps, s.now - startTime ≤ streamTimeout) →
      (oaRun pf jp accept startTime st steps).outcome ≠ StreamOutcome.timedOut) := by
  induction steps with
  | nil =>
      intro st
      simp only [oaRun]
      refine ⟨by simp, ?_, ?_⟩
      · intro h
        exact nomatch h
      · intro _ h
        exact nomatch h
  | cons step rest ih =>
      intro st
      simp only [oaRun]
      split
      · rename_i hlate
        refine ⟨by simp, fun _ => rfl, fun hall => ?_⟩
        exact absurd (hall step (List.mem_cons_self step rest)) (by omega)
      · rename_i hok
        split
        · refine ⟨?_, ?_, ?_⟩
          · intro t ht
            simp only [List.mem_singleton] at ht
            subst ht
            omega
          · intro h
            exact nomatch h
          · intro _ h
            exact nomatch h
        · rename_i chunk hread
          cases hls : oaLinesStep pf jp accept
              { st with buffer := (splitBuffered (st.buffer ++ chunk)).2 }
              (splitBuffered (st.buffer ++ chunk)).1 with
          | mk st2 c =>
              cases c with
              | go =>
                  have hrest := ih st2
                  simp only [hls]
                  refine ⟨?_, hrest.2.1, fun hall => hrest.2.2
                    (fun s hs => hall s (List.mem_cons_of_mem step hs))⟩
                  intro t ht
                  simp only [List.mem_cons] at ht
                  rcases ht with rfl | ht
                  · omega
                  · exact hrest.1 t ht
              | abort =>
                  simp only [hls]
                  refine ⟨?_, ?_, ?_⟩
                  · intro t ht
                    simp only [List.mem_singleton] at ht
                    subst ht
                    omega
                  · intro h
                    exact nomatch h
                  · intro _ h
                    exact nomatch h

theorem anthRun_time {α : Type} (pf : String → Option AnthFrame) (jp : String → Option α)
    (accept : Nat → Bool) (startTime : Nat) (steps : List OAStep) :
    ∀ (st : AnthMach α),
    (∀ t ∈ (anthRun pf jp accept startTime st steps).processedNows,
      t - startTime ≤ streamTimeout) ∧
    ((anthRun pf jp accept startTime st steps).outcome = StreamOutcome.timedOut →
      (anthRun pf jp accept startTime st steps).cancelled = true) ∧
    ((∀ s ∈ steps, s.now - startTime ≤ streamTimeout) →
      (anthRun pf jp accept startTime st steps).outcome ≠ StreamOutcome.timedOut) := by
  induction steps with
  | nil =>
      intro st
      simp only [anthRun]
      refine ⟨by simp, ?_, ?_⟩
      · intro h
        exact nomatch h
      · intro _ h
        exact nomatch h
  | cons step rest ih =>
      intro st
      simp only [anthRun]
      split
      · rename_i hlate
        refine ⟨by simp, fun _ => rfl, fun hall => ?_⟩
        exact absurd (hall step (List.mem_cons_self step rest)) (by omega)
      · rename_i hok
        split
        · refine ⟨?_, ?_, ?_⟩
          · intro t ht
            simp only [List.mem_singleton] at ht
            subst ht
            omega
          · intro h
            exact nomatch h
          · intro _ h
            exact nomatch h
        · rename_i chunk hread
          cases hls : anthLinesStep pf jp accept
              { st with buffer := (splitBuffered (st.buffer ++ chunk)).2 }
              (splitBuffered (st.buffer ++ chunk)).1 with
          | mk st2 c =>
              cases c with
              | go =>
                  have hrest := ih st2
                  simp only [hls]
                  refine ⟨?_, hrest.2.1, fun hall => hrest.2.2
                    (fun s hs => hall s (List.mem_cons_of_mem step hs))⟩
                  intro t ht
                  simp only [List.mem_cons] at ht
                  rcases ht with rfl | ht
                  · omega
                  · exact hrest.1 t ht
              | abort =>
                  simp only [hls]
                  refine ⟨?_, ?_, ?_⟩
                  · intro t ht
                    simp only [List.mem_singleton] at ht
                    subst ht
                    omega
                  · intro h
                    exact nomatch h
                  · intro _ h
                    exact nomatch h

/-- C5 counterexample: the decode loop of ai-gateway.ts `streamOpenAI`
has no timeout check — an iteration whose clock reads 10^9 ms of
elapsed time (far past the 280000 ms budget) still processes its chunk,
emits the text delta, and the run completes normally with no
stream-timeout error and no cancellation, so the claim does not hold
for every streaming session. -/
theorem c5_counterexample :
    gwOaRun pfC4 jpNoneNat oaInit [{ now := 1000000000, read := some "data: C\n" }]
      = { st := { buffer := "", acc := {}, toolCallIndex := none,
                  trace := [StreamEvent.chunk "hi"], nChunks := 1 },
          outcome := StreamOutcome.completed, cancelled := false,
          processedNows := [1000000000] } ∧
    streamTimeout < 1000000000 - 0 := by
  exact ⟨rfl, by decide⟩

/-- C5 (amended): the two decode loops of the streaming endpoint
(ai-gateway-streaming.ts) check the fixed 280000 ms wall-clock budget
at the top of every iteration: every iteration whose body runs starts
within the budget, on exceeding the budget the upstream read is
cancelled and the distinguished stream-timeout error is raised, and the
timeout is never raised spuriously (a run whose every read is observed
within the budget does not time out).  The decode loops of
ai-gateway.ts have no such bound and may continue past the budget
until the upstream closes. -/
theorem c5_timeout_streaming_loops :
    ∀ (α : Type) (pf : String → Option OAFrame) (pfa : String → Option AnthFrame)
      (jp : String → Option α) (accept : Nat → Bool) (startTime : Nat)
      (steps : List OAStep),
      (∀ t ∈ (oaRun pf jp accept startTime oaInit steps).processedNows,
        t - startTime ≤ streamTimeout) ∧
      ((oaRun pf jp accept startTime oaInit steps).outcome = StreamOutcome.timedOut →
        (oaRun pf jp accept startTime oaInit steps).cancelled = true) ∧
      ((∀ s ∈ steps, s.now - startTime ≤ streamTimeout) →
        (oaRun pf jp accept startTime oaInit steps).outcome ≠ StreamOutcome.timedOut) ∧
      (∀ t ∈ (anthRun pfa jp accept startTime anthInit steps).processedNows,
        t - startTime ≤ streamTimeout) ∧
      ((anthRun pfa jp accept startTime anthInit steps).outcome = StreamOutcome.timedOut →
        (anthRun pfa jp accept startTime anthInit steps).cancelled = true) ∧
      ((∀ s ∈ steps, s.now - startTime ≤ streamTimeout) →
        (anthRun pfa jp accept startTime anthInit steps).outcome ≠ StreamOutcome.timedOut) := by
  intro α pf pfa jp accept startTime steps
  obtain ⟨h1, h2, h3⟩ := oaRun_time pf jp accept startTime steps oaInit
  obtain ⟨h4, h5, h6⟩ := anthRun_time pfa jp accept startTime steps anthInit
  exact ⟨h1, h2, h3, h4, h5, h6⟩

/-- C5 witness: a processed iteration is within budget, and a run
whose clock exceeds the budget times out with the reader cancelled. -/
theorem c5_timeout_streaming_loops_witness :
    (5 : Nat) - 0 ≤ streamTimeout ∧
    (oaRun pfC4 jpNoneNat (fun _ => true) 0 oaInit
        [{ now := 300000, read := some "data: C\n" }]).cancelled = true := by
  constructor
  · exact (c5_timeout_streaming_loops Nat pfC4 (fun _ => none) jpNoneNat
      (fun _ => true) 0 [{ now := 5, read := none }]).1 5 (by decide)
  · exact (c5_timeout_streaming_loops Nat pfC4 (fun _ => none) jpNoneNat
      (fun _ => true) 0 [{ now := 300000, read := some "data: C\n" }]).2.1 rfl

/- ===================================================================
   C8: stale-cache refresh policy of the pool scan.
   =================================================================== -/

/-- Whether a candidate visit performed (or attempted) a synchronous
status refresh against the upstream subscription endpoint: a thrown
check (`Except.error`) also counts, since the upstream call happened. -/
def visitRefreshed (r : Except Nat (Option String × StatusMap × Bool)) : Bool :=
  match r with
  | .error _ => true
  | .ok (_, _, b) => b

/-- A cached health record that is exhausted and a million milliseconds
stale. -/
def c8stale : KeyStatus :=
  { key := "k1", shortKey := "k1", characterCount := 1000,
    characterLimit := 1000, remainingCharacters := 0, isOverLimit := true,
    isNearLimit := true, nextResetDate := 0, lastChecked := 0,
    status := KStatus.exhausted }

/-- A stale (1000000 ms old) cached record in the active, under-limit
state. -/
def c8staleActive : KeyStatus :=
  { key := "k1", shortKey := "k1", characterCount := 0,
    characterLimit := 1000, remainingCharacters := 1000, isOverLimit := false,
    isNearLimit := false, nextResetDate := 0, lastChecked := 0,
    status := KStatus.active }

/-- A fresh (1 ms old at time 1000000) cached record in the active,
under-limit state. -/
def c8freshActive : KeyStatus :=
  { key := "k1", shortKey := "k1", characterCount := 0,
    characterLimit := 1000, remainingCharacters := 1000, isOverLimit := false,
    isNearLimit := false, nextResetDate := 0, lastChecked := 999999,
    status := KStatus.active }

/-- C8 counterexample: a cached entry that is 1000000 ms stale (far
beyond the 60 s freshness window) but in the exhausted state is skipped
on the cached value alone — the acquire scan performs no refresh
(`refreshed = []`) and fails with the all-exhausted error, even though
the upstream endpoint (oracle `ok 0 1000`) would report the credential
as usable: with no cached entry the very same call selects the key.  So
a stale cache is NOT refreshed regardless of the health state it holds. -/
theorem c8_counterexample :
    60000 < 1000000 - c8stale.lastChecked ∧
    (getAvailableKey 1000000 (fun _ => SubResp.ok 0 1000 0)
        ["k1"] 0 [("k1", c8stale)]).refreshed = [] ∧
    (getAvailableKey 1000000 (fun _ => SubResp.ok 0 1000 0)
        ["k1"] 0 [("k1", c8stale)]).result = Except.error PoolErr.allExhausted ∧
    (getAvailableKey 1000000 (fun _ => SubResp.ok 0 1000 0)
        ["k1"] 0 []).result = Except.ok "k1" := by
  refine ⟨by decide, rfl, rfl, rfl⟩

/-- C8 (amended): the refresh policy of one candidate visit.  A missing
cache entry is refreshed; a cached active, under-limit entry older than
60 s is refreshed; a cached active, under-limit entry within 60 s is
used as-is (selected, no refresh); and a cached entry that is not
active-and-under-limit is skipped on the cached value alone, with no
refresh, no matter how stale it is. -/
theorem c8_refresh_policy :
    ∀ (now : Nat) (resp : SubResp) (sts : StatusMap) (k : String),
      (alistGet sts k = none →
        visitRefreshed (visitKey now resp sts k) = true) ∧
      (∀ st, alistGet sts k = some st → st.status = KStatus.active →
        st.isOverLimit = false → 60000 < now - st.lastChecked →
        visitRefreshed (visitKey now resp sts k) = true) ∧
      (∀ st, alistGet sts k = some st → st.status = KStatus.active →
        st.isOverLimit = false → ¬ 60000 < now - st.lastChecked →
        visitKey now resp sts k = Except.ok (some k, sts, false)) ∧
      (∀ st, alistGet sts k = some st →
        ¬ (st.status = KStatus.active ∧ st.isOverLimit = false) →
        visitKey now resp sts k = Except.ok (none, sts, false)) := by
  intro now resp sts k
  refine ⟨?_, ?_, ?_, ?_⟩
  · intro h
    simp only [visitKey, h]
    cases resp with
    | s401 => simp [checkKeyStatus, alistGet_set_self, visitRefreshed]
    | s429 => simp [checkKeyStatus, h, alistGet_set_self, visitRefreshed]
    | httpErr c => rfl
    | ok cc cl nr =>
        by_cases hov : cl ≤ cc <;>
          simp [checkKeyStatus, alistGet_set_self, visitRefreshed, hov]
  · intro st hget hst hov h60
    simp only [visitKey, hget, hst, hov]
    simp only [and_self, if_true, if_pos h60]
    cases resp with
    | s401 => simp [checkKeyStatus, alistGet_set_self, visitRefreshed]
    | s429 => simp [checkKeyStatus, hget, alistGet_set_self, visitRefreshed, hov]
    | httpErr c => rfl
    | ok cc cl nr =>
        by_cases hcc : cl ≤ cc <;>
          simp [checkKeyStatus, alistGet_set_self, visitRefreshed, hcc]
  · intro st hget hst hov h60
    simp only [visitKey, hget, hst, hov]
    simp only [and_self, if_true, if_neg h60, hov]
    simp [hget, hov]
  · intro st hget hcond
    simp only [visitKey, hget]
    rw [if_neg hcond]

/-- C8 witness: the four clauses at concrete inputs — an absent entry
and a stale active entry get refreshed, a fresh active entry is
selected with no refresh, and a stale exhausted entry is skipped with
no refresh. -/
theorem c8_refresh_policy_witness :
    visitRefreshed (visitKey 1000000 (SubResp.ok 0 1000 0) [] "k1") = true ∧
    visitRefreshed (visitKey 1000000 (SubResp.ok 0 1000 0)
      [("k1", c8staleActive)] "k1") = true ∧
    visitKey 1000000 (SubResp.ok 0 1000 0) [("k1", c8freshActive)] "k1"
      = Except.ok (some "k1", [("k1", c8freshActive)], false) ∧
    visitKey 1000000 (SubResp.ok 0 1000 0) [("k1", c8stale)] "k1"
      = Except.ok (none, [("k1", c8stale)], false) := by
  refine ⟨(c8_refresh_policy 1000000 (SubResp.ok 0 1000 0) [] "k1").1 rfl,
    (c8_refresh_policy 1000000 (SubResp.ok 0 1000 0)
      [("k1", c8staleActive)] "k1").2.1 c8staleActive rfl rfl rfl (by decide),
    (c8_refresh_policy 1000000 (SubResp.ok 0 1000 0)
      [("k1", c8freshActive)] "k1").2.2.1 c8freshActive rfl rfl rfl (by decide),
    (c8_refresh_policy 1000000 (SubResp.ok 0 1000 0)
      [("k1", c8stale)] "k1").2.2.2 c8stale rfl (by decide)⟩

/- ===================================================================
   C9: single full scan and termination of getAvailableKey.
   =================================================================== -/

/-- The scan visits at most `fuel` further candidates: structural
termination bound of the `while (attempts < keys.length)` loop. -/
lemma scanLoop_visited_length (now : Nat) (resp : String → SubResp) (keys : List String) :
    ∀ (fuel idx : Nat) (sts : StatusMap) (visited : List Nat) (refreshed : List String),
      (scanLoop now resp keys fuel idx sts visited refreshed).visited.length
        ≤ visited.length + fuel := by
  intro fuel
  induction fuel with
  | zero =>
      intro idx sts visited refreshed
      simp [scanLoop]
  | succ fuel ih =>
      intro idx sts visited refreshed
      cases hv : visitKey now (resp (keys.getD idx "")) sts (keys.getD idx "") with
      | error c =>
          simp only [scanLoop, hv, List.length_reverse, List.length_cons]
          omega
      | ok x =>
          obtain ⟨sel, sts', r⟩ := x
          cases sel with
          | some key =>
              simp only [scanLoop, hv, List.length_reverse, List.length_cons]
              omega
          | none =>
              simp only [scanLoop, hv]
              refine le_trans
                (ih ((idx + 1) % keys.length) sts' (idx :: visited) _) ?_
              simp only [List.length_cons]
              omega

/-- The one-rotation index sequence starting at any cursor has no
repeats: i ↦ (c + i) % n is injective on range n. -/
lemma rotation_nodup (c n : Nat) :
    ((List.range n).map (fun i => (c + i) % n)).Nodup := by
  apply List.Nodup.map_on
  · intro i hi j hj h
    rw [List.mem_range] at hi hj
    have h2 : i % n = j % n := Nat.ModEq.add_left_cancel' c h
    rwa [Nat.mod_eq_of_lt hi, Nat.mod_eq_of_lt hj] at h2
  · exact List.nodup_range n

/-- When every credential's cached status is non-active or over-limit,
every visit is a refresh-free skip that leaves the cache untouched, so
the scan walks the full rotation from the cursor and ends all-exhausted. -/
lemma scanLoop_all_bad (now : Nat) (resp : String → SubResp) (keys : List String)
    (sts : StatusMap)
    (hbad : ∀ k ∈ keys, ∃ st, alistGet sts k = some st ∧
      (st.status ≠ KStatus.active ∨ st.isOverLimit = true)) :
    ∀ (fuel idx : Nat) (visited : List Nat) (refreshed : List String),
      idx < keys.length →
      scanLoop now resp keys fuel idx sts visited refreshed =
        { result := Except.error PoolErr.allExhausted,
          finalIndex := (idx + fuel) % keys.length,
          statuses := sts,
          visited := visited.reverse ++
            (List.range fuel).map (fun i => (idx + i) % keys.length),
          refreshed := refreshed.reverse } := by
  intro fuel
  induction fuel with
  | zero =>
      intro idx visited refreshed hidx
      simp [scanLoop, Nat.mod_eq_of_lt hidx]
  | succ fuel ih =>
      intro idx visited refreshed hidx
      have hlen : 0 < keys.length := Nat.lt_of_le_of_lt (Nat.zero_le idx) hidx
      have hkmem : keys.getD idx "" ∈ keys := by
        rw [List.getD_eq_getElem keys "" hidx]
        exact List.getElem_mem hidx
      obtain ⟨st, hget, hb⟩ := hbad _ hkmem
      have hcond : ¬ (st.status = KStatus.active ∧ st.isOverLimit = false) := by
        rcases hb with h | h
        · exact fun hc => h hc.1
        · intro hc
          rw [hc.2] at h
          exact Bool.false_ne_true h
      have hv : visitKey now (resp (keys.getD idx "")) sts (keys.getD idx "") =
          Except.ok (none, sts, false) := by
        simp only [visitKey, hget]
        rw [if_neg hcond]
      simp only [scanLoop, hv]
      rw [show (if (false : Bool) = true
            then keys.getD idx "" :: refreshed else refreshed) = refreshed from rfl]
      rw [ih ((idx + 1) % keys.length) (idx :: visited) refreshed
        (Nat.mod_lt _ hlen)]
      have hfi : ((idx + 1) % keys.length + fuel) % keys.length
          = (idx + (fuel + 1)) % keys.length := by
        rw [Nat.mod_add_mod]
        congr 1
        omega
      have hmap : (List.range fuel).map
            (fun i => ((idx + 1) % keys.length + i) % keys.length)
          = (List.range fuel).map (fun i => (idx + 1 + i) % keys.length) := by
        apply List.map_congr_left
        intro i _
        rw [Nat.mod_add_mod]
      have hvl : (idx :: visited).reverse ++ (List.range fuel).map
            (fun i => ((idx + 1) % keys.length + i) % keys.length)
          = visited.reverse ++
            (List.range (fuel + 1)).map (fun i => (idx + i) % keys.length) := by
        rw [hmap, List.reverse_cons, List.append_assoc, List.range_succ_eq_map,
          List.map_cons, List.map_map, List.singleton_append]
        congr 1
        congr 1
        · rw [Nat.add_zero, Nat.mod_eq_of_lt hidx]
        · apply List.map_congr_left
          intro i _
          simp only [Function.comp_apply]
          congr 1
          omega
      rw [hfi, hvl]

/-- C9: the acquire scan always terminates within one rotation (at most
`keys.length` candidates are ever visited, for every input), and when
every credential's cached health is unusable (exhausted, rate-limited,
invalid, or over its capacity limit) the call visits each of the N
credentials exactly once — the visit trace is exactly the rotation
starting at the cursor, with no repeats — and returns the all-exhausted
error. -/
theorem c9_all_exhausted_single_scan :
    (∀ (now : Nat) (resp : String → SubResp) (keys : List String)
        (c : Nat) (sts : StatusMap),
      (getAvailableKey now resp keys c sts).visited.length ≤ keys.length) ∧
    (∀ (now : Nat) (resp : String → SubResp) (keys : List String)
        (c : Nat) (sts : StatusMap),
      c < keys.length →
      (∀ k ∈ keys, ∃ st, alistGet sts k = some st ∧
        (st.status ≠ KStatus.active ∨ st.isOverLimit = true)) →
      (getAvailableKey now resp keys c sts).result
          = Except.error PoolErr.allExhausted ∧
      (getAvailableKey now resp keys c sts).visited
          = (List.range keys.length).map (fun i => (c + i) % keys.length) ∧
      (getAvailableKey now resp keys c sts).visited.length = keys.length ∧
      (getAvailableKey now resp keys c sts).visited.Nodup) := by
  constructor
  · intro now resp keys c sts
    by_cases h0 : keys.length = 0
    · simp [getAvailableKey, h0]
    · simp only [getAvailableKey, if_neg h0]
      refine le_trans (scanLoop_visited_length now resp keys keys.length c sts [] []) ?_
      simp
  · intro now resp keys c sts hc hbad
    have h0 : ¬ keys.length = 0 := by omega
    have h := scanLoop_all_bad now resp keys sts hbad keys.length c [] [] hc
    have hres : getAvailableKey now resp keys c sts =
        { result := Except.error PoolErr.allExhausted,
          finalIndex := (c + keys.length) % keys.length,
          statuses := sts,
          visited := (List.range keys.length).map (fun i => (c + i) % keys.length),
          refreshed := [] } := by
      rw [getAvailableKey, if_neg h0, h]
      simp
    rw [hres]
    refine ⟨rfl, rfl, ?_, rotation_nodup c keys.length⟩
    simp

/-- A cached exhausted record for the first pooled credential. -/
def c9bad : KeyStatus :=
  { key := "a", shortKey := "a", characterCount := 5, characterLimit := 5,
    remainingCharacters := 0, isOverLimit := true, isNearLimit := true,
    nextResetDate := 0, lastChecked := 0, status := KStatus.exhausted }

/-- A cached rate-limited record for the second pooled credential. -/
def c9bad2 : KeyStatus :=
  { key := "b", shortKey := "b", characterCount := 0, characterLimit := 5,
    remainingCharacters := 5, isOverLimit := false, isNearLimit := true,
    nextResetDate := 60000, lastChecked := 0, status := KStatus.rate_limited }

/-- An all-unusable cache over the two-credential pool. -/
def c9sts : StatusMap := [("a", c9bad), ("b", c9bad2)]

/-- C9 witness: with two credentials, cursor 1 and an all-unusable
cache, the scan visits indices 1 then 0 (each exactly once) and raises
the all-exhausted error. -/
theorem c9_all_exhausted_single_scan_witness :
    (getAvailableKey 0 (fun _ => SubResp.ok 0 0 0) ["a", "b"] 1 c9sts).visited.length ≤ 2 ∧
    (getAvailableKey 0 (fun _ => SubResp.ok 0 0 0) ["a", "b"] 1 c9sts).result
        = Except.error PoolErr.allExhausted ∧
    (getAvailableKey 0 (fun _ => SubResp.ok 0 0 0) ["a", "b"] 1 c9sts).visited
        = [1, 0] := by
  have hbad : ∀ k ∈ ["a", "b"], ∃ st, alistGet c9sts k = some st ∧
      (st.status ≠ KStatus.active ∨ st.isOverLimit = true) := by
    intro k hk
    simp only [List.mem_cons, List.not_mem_nil, or_false] at hk
    rcases hk with rfl | rfl
    · exact ⟨c9bad, rfl, Or.inr rfl⟩
    · exact ⟨c9bad2, rfl, Or.inl (by decide)⟩
  obtain ⟨h1, h2, h3, h4⟩ := c9_all_exhausted_single_scan.2 0
    (fun _ => SubResp.ok 0 0 0) ["a", "b"] 1 c9sts (by decide) hbad
  refine ⟨c9_all_exhausted_single_scan.1 0
    (fun _ => SubResp.ok 0 0 0) ["a", "b"] 1 c9sts, h1, ?_⟩
  rw [h2]
  decide

end SeeMe
